import Mathlib

/-!
Verification of the aurora2.0 production scheduler (src/scheduler.py).

This file shallowly embeds the scheduling core of `scheduler.py` in Lean:
pure Python functions become Lean functions, the stateful scheduling loop
becomes explicit state passing with fuel equal to the source's iteration
caps, datetimes become minute counts since 2025-08-22 00:00 (a Friday),
Python floats in the priority computation become exact rationals, and
Python dicts/sets become association lists / lists in insertion order
(a deterministic refinement of Python's unordered set iteration).
Fallible code returns Option / Except.
-/

namespace Aurora

/-! ## Association-list helpers (Python dict semantics) -/

/-- Lookup in an association list (first binding wins, like a dict whose
keys are unique). -/
def alookup {β : Type} : List (String × β) → String → Option β
  | [], _ => none
  | (k2, v) :: rest, k => if k2 = k then some v else alookup rest k

/-- Dict assignment `d[k] = v`: replace the binding if the key is present,
append otherwise. -/
def aset {β : Type} : List (String × β) → String → β → List (String × β)
  | [], k, v => [(k, v)]
  | (k2, v2) :: rest, k, v =>
    if k2 = k then (k2, v) :: rest else (k2, v2) :: aset rest k v

/-- Keys of an association list. -/
def akeys {β : Type} (l : List (String × β)) : List String := l.map (·.1)

/-- Insertion-order deduplication, modelling accumulation into a Python set
(first occurrence kept).  `seen` collects the keys already emitted. -/
def dedupKeepAux : List String → List String → List String
  | [], _ => []
  | x :: xs, seen =>
    if seen.contains x then dedupKeepAux xs seen
    else x :: dedupKeepAux xs (x :: seen)

def dedupKeep (l : List String) : List String := dedupKeepAux l []

theorem mem_dedupKeepAux :
    ∀ (xs seen : List String) (y : String),
      y ∈ dedupKeepAux xs seen ↔ (y ∈ xs ∧ seen.contains y = false) := by
  intro xs
  induction xs with
  | nil => intro seen y; simp [dedupKeepAux]
  | cons x xs ih =>
    intro seen y
    rw [dedupKeepAux]
    by_cases hs : seen.contains x
    · rw [if_pos hs, ih]
      constructor
      · rintro ⟨h1, h2⟩; exact ⟨List.mem_cons_of_mem _ h1, h2⟩
      · rintro ⟨h1, h2⟩
        rcases List.mem_cons.mp h1 with rfl | h1
        · rw [h2] at hs; exact Bool.noConfusion hs
        · exact ⟨h1, h2⟩
    · rw [if_neg hs]
      simp only [List.mem_cons, ih]
      constructor
      · rintro (rfl | ⟨h1, h2⟩)
        · exact ⟨Or.inl rfl, by simpa using hs⟩
        · simp only [List.contains_cons, Bool.or_eq_false_iff] at h2
          exact ⟨Or.inr h1, h2.2⟩
      · rintro ⟨rfl | h1, h2⟩
        · exact Or.inl rfl
        · by_cases hxy : y = x
          · exact Or.inl hxy
          · refine Or.inr ⟨h1, ?_⟩
            simp only [List.contains_cons, Bool.or_eq_false_iff]
            refine ⟨?_, h2⟩
            rw [beq_eq_false_iff_ne]
            intro h
            first
            | exact hxy h
            | exact hxy h.symm

theorem dedupKeepAux_nodup : ∀ (xs seen : List String), (dedupKeepAux xs seen).Nodup := by
  intro xs
  induction xs with
  | nil => intro seen; simp [dedupKeepAux]
  | cons x xs ih =>
    intro seen
    rw [dedupKeepAux]
    by_cases hs : seen.contains x
    · rw [if_pos hs]; exact ih seen
    · rw [if_neg hs]
      refine List.nodup_cons.mpr ⟨?_, ih (x :: seen)⟩
      intro hmem
      have := (mem_dedupKeepAux xs (x :: seen) x).mp hmem
      simp at this

theorem dedupKeep_nodup (l : List String) : (dedupKeep l).Nodup :=
  dedupKeepAux_nodup l []

theorem mem_dedupKeep (l : List String) (x : String) : x ∈ dedupKeep l ↔ x ∈ l := by
  rw [dedupKeep, mem_dedupKeepAux]
  simp

/-! ## Character-level string utilities

`create_product_task_id` / `parse_product_task_id` manipulate strings at the
character level, so the two functions are embedded over `List Char`
(`String.data`).  Python `str.replace(pat, "")` removes every occurrence of
the pattern; `str.split(sep)` returns every field including empty ones;
`int(s)` tolerates surrounding whitespace and one optional sign.
-/

/-- Python `s.replace(pat, "")` (remove every occurrence of `pat`).
For an empty pattern the string is returned unchanged (the source only ever
uses the non-empty pattern `"Product "`). -/
def replaceDropAll (pat : List Char) (s : List Char) : List Char :=
  match s with
  | [] => []
  | c :: rest =>
    if h : pat ≠ [] ∧ pat.isPrefixOf (c :: rest) then
      replaceDropAll pat (List.drop pat.length (c :: rest))
    else
      c :: replaceDropAll pat rest
termination_by s.length
decreasing_by
  · simp only [List.length_drop, List.length_cons]
    have hp : 0 < pat.length := List.length_pos.mpr h.1
    omega
  · simp

/-- Python `s.split(sep)` for a single-character separator: all fields,
empty fields included. -/
def splitOnChar (sep : Char) : List Char → List (List Char)
  | [] => [[]]
  | c :: rest =>
    let r := splitOnChar sep rest
    if c = sep then [] :: r
    else
      match r with
      | [] => [[c]]
      | f :: fs => (c :: f) :: fs

/-- Decimal digits (most significant first) of a natural number, as produced
by Python `str(n)` for `n ≥ 0`. -/
def natDigits (n : Nat) : List Char :=
  if h : n < 10 then [Char.ofNat (48 + n)]
  else natDigits (n / 10) ++ [Char.ofNat (48 + n % 10)]
termination_by n
decreasing_by
  exact Nat.div_lt_self (by omega) (by omega)

/-- Python `str(n)` for an integer, over `List Char`. -/
def intToChars (n : Int) : List Char :=
  if n < 0 then '-' :: natDigits n.natAbs else natDigits n.natAbs

/-- Numeric value of a decimal digit character, if it is one. -/
def digitVal (c : Char) : Option Nat :=
  if 48 ≤ c.toNat ∧ c.toNat ≤ 57 then some (c.toNat - 48) else none

/-- Parse a non-empty all-digit character list as a natural number. -/
def parseDigits (s : List Char) : Option Nat :=
  if s.isEmpty then none
  else
    s.foldl (fun acc c =>
      match acc, digitVal c with
      | some a, some d => some (a * 10 + d)
      | _, _ => none) (some 0)

/-- Surrounding-whitespace strip of Python `int(str)` (spaces only in this
ASCII embedding). -/
def trimSpaces (s : List Char) : List Char :=
  ((s.dropWhile (fun c => c = ' ')).reverse.dropWhile (fun c => c = ' ')).reverse

/-- Python `int(s)` restricted to ASCII: strip surrounding spaces, then an
optional single sign followed by at least one decimal digit.  (Python also
accepts other Unicode spaces/digits and `_` digit grouping; the grouping
case cannot arise here because the argument comes from an underscore
split.) -/
def pyParseIntCore : List Char → Option Int
  | [] => none
  | c :: rest =>
    if c = '-' then (parseDigits rest).map (fun n => -(n : Int))
    else if c = '+' then (parseDigits rest).map (fun n => (n : Int))
    else (parseDigits (c :: rest)).map (fun n => (n : Int))

def pyParseInt (s : List Char) : Option Int :=
  pyParseIntCore (trimSpaces s)

/-- Does `pat` occur as a contiguous sublist of `s`?  (The occurrences that
Python `str.replace` removes.) -/
def hasSub (pat : List Char) : List Char → Bool
  | [] => false
  | c :: rest => pat.isPrefixOf (c :: rest) || hasSub pat rest

/-- `create_product_task_id` (scheduler.py lines 105-109):
`product.replace("Product ", "")` followed by `f"{initial}_{task_num}"`. -/
def create_product_task_id (product : List Char) (task_num : Int) : List Char :=
  replaceDropAll ("Product ".data) product ++ '_' :: intToChars task_num

/-- `parse_product_task_id` (scheduler.py lines 111-123) on string input:
split on underscore; with exactly two fields return
`("Product " + initial, int(second))`, and `(None, None)` when the split
shape or the integer parse fails.  (The Python non-string input case, which
also returns `(None, None)`, is outside this `List Char` embedding.) -/
def parseFromParts : List (List Char) → Option (List Char) × Option Int
  | [a, b] =>
    match pyParseInt b with
    | some n => (some ("Product ".data ++ a), some n)
    | none => (none, none)
  | _ => (none, none)

def parse_product_task_id (s : List Char) : Option (List Char) × Option Int :=
  parseFromParts (splitOnChar '_' s)

/-! ## Time model

Datetimes are minutes since 2025-08-22 00:00.  2025-08-22 is a Friday, so
day `d` has Python weekday `(4 + d) % 7` (Monday = 0).  `replace(hour=6,
minute=0, second=0)` becomes `dayOf t * 1440 + 360`. -/

def dayOf (t : Nat) : Nat := t / 1440

def minuteOfDay (t : Nat) : Nat := t % 1440

def weekday (d : Nat) : Nat := (4 + d) % 7

/-- The scheduling epoch `datetime(2025, 8, 22, 6, 0)`. -/
def startDate : Nat := 360

/-! ## Data model

`TaskInfo` mirrors the per-instance dicts stored in `self.tasks`; `Env`
collects the scheduler-object fields that the scheduling core reads.  The
`now` reading of `datetime.now()` is passed separately where the source
calls it.  Dicts become association lists and sets become lists, both in
insertion order. -/

structure TaskInfo where
  duration : Nat
  team : String
  mechanics_required : Nat
  is_quality : Bool
  task_type : String
  product_line : Option String
deriving Repr, DecidableEq

/-- One row of the dynamic constraint list built by
`build_dynamic_dependencies`. -/
structure Constraint where
  First : String
  Second : String
  Relationship : String
deriving Repr, DecidableEq

structure Env where
  tasks : List (String × TaskInfo)
  constraints : List Constraint
  latePartTasks : List String
  reworkTasks : List String
  onDockDates : List (String × Nat)
  latePartDelayDays : Nat
  teamShifts : List (String × List String)
  qualityTeamShifts : List (String × List String)
  teamCapacity : List (String × Nat)
  qualityTeamCapacity : List (String × Nat)
  holidays : List (String × List Nat)
  deliveryDates : List (String × Nat)
  taskToProduct : List (String × String)
  qualityInspections : List (String × String)
  productTasks : List String
deriving Repr

def defaultTaskInfo : TaskInfo :=
  { duration := 0, team := "", mechanics_required := 0, is_quality := false,
    task_type := "", product_line := none }

/-- A value stored in `self.task_schedule`. -/
structure SchedEntry where
  start_time : Nat
  end_time : Nat
  team : String
  product_line : String
  duration : Nat
  mechanics_required : Nat
  is_quality : Bool
  task_type : String
  shift : String
deriving Repr, DecidableEq

/-! ## Calendar and capacity primitives -/

/-- `is_working_day` (scheduler.py lines 1315-1323): a weekday that is not a
holiday of the product line (`self.holidays` is a `defaultdict(set)`, so an
unknown product has no holidays).  Holidays are compared at day
granularity, as in the source. -/
def is_working_day (env : Env) (t : Nat) (product_line : String) : Bool :=
  if 5 ≤ weekday (dayOf t) then false
  else
    match alookup env.holidays product_line with
    | some hs => ¬ hs.contains (dayOf t)
    | none => true

/-- The capacity resolution in `check_team_capacity_at_time`:
`self.team_capacity.get(team, 0) or self.quality_team_capacity.get(team, 0)`
(Python `or` falls through on the falsy value 0). -/
def capacityOf (env : Env) (team : String) : Nat :=
  let c := (alookup env.teamCapacity team).getD 0
  if c ≠ 0 then c else (alookup env.qualityTeamCapacity team).getD 0

/-- Concurrent headcount of `team` at minute `m` over the current schedule
(the per-minute summation inside `check_team_capacity_at_time`). -/
def teamUsageAt (sched : List (String × SchedEntry)) (team : String) (m : Nat) : Nat :=
  sched.foldl (fun acc p =>
    if p.2.team = team ∧ p.2.start_time ≤ m ∧ m < p.2.end_time
    then acc + p.2.mechanics_required else acc) 0

/-- `check_team_capacity_at_time` (scheduler.py lines 1325-1346): every
minute of `[startT, endT)` must keep `usage + needed ≤ capacity`. -/
def check_team_capacity_at_time (env : Env) (sched : List (String × SchedEntry))
    (team : String) (startT endT needed : Nat) : Bool :=
  let capacity := capacityOf env team
  (List.range (endT - startT)).all
    (fun i => decide (teamUsageAt sched team (startT + i) + needed ≤ capacity))

/-- Shift windows in minutes of day: 1st = [06:00, 14:30), 2nd =
[14:30, 23:00), 3rd = [23:00, 24:00) ∪ [00:00, 06:00). -/
def shiftWindowB (sh : String) (m : Nat) : Bool :=
  if sh = "1st" then decide (360 ≤ m ∧ m < 870)
  else if sh = "2nd" then decide (870 ≤ m ∧ m < 1380)
  else if sh = "3rd" then decide (1380 ≤ m ∨ m < 360)
  else false

/-- Quality-shift availability inside `get_next_working_time_with_capacity`:
the first of 1st/2nd/3rd whose window contains `m` and that ANY quality
team works (the candidate team itself is not consulted, as in the
source). -/
def availableShiftQuality (env : Env) (m : Nat) : Option String :=
  (["1st", "2nd", "3rd"].filter
    (fun sh => shiftWindowB sh m && env.qualityTeamShifts.any (fun p => p.2.contains sh))).head?

/-- Mechanic-shift availability: the first shift in the team's own list
whose window contains `m`. -/
def availableShiftMechanic (env : Env) (team : String) (m : Nat) : Option String :=
  (((alookup env.teamShifts team).getD []).filter (fun sh => shiftWindowB sh m)).head?

/-- The forward jump taken when no shift window is available at the current
minute (the final `else` ladder of `get_next_working_time_with_capacity`). -/
def jumpTarget (current : Nat) : Nat :=
  let m := minuteOfDay current
  if m < 360 then dayOf current * 1440 + 360
  else if m < 870 then dayOf current * 1440 + 870
  else if m < 1380 then dayOf current * 1440 + 1380
  else dayOf current * 1440 + 360 + 1440

/-- The bounded search loop of `get_next_working_time_with_capacity`
(scheduler.py lines 1348-1417); fuel = the source's `max_iterations`.
Exhausting the fuel models the `RuntimeError` raise as `none`. -/
def get_next_go (env : Env) (sched : List (String × SchedEntry)) (pl team : String)
    (needed duration : Nat) (isQ : Bool) : Nat → Nat → Option (Nat × String)
  | 0, _ => none
  | fuel + 1, current =>
    if is_working_day env current pl = false then
      get_next_go env sched pl team needed duration isQ fuel (dayOf current * 1440 + 360 + 1440)
    else
      let m := minuteOfDay current
      let avail := if isQ then availableShiftQuality env m else availableShiftMechanic env team m
      match avail with
      | some sh =>
        if check_team_capacity_at_time env sched team current (current + duration) needed then
          some (current, sh)
        else
          get_next_go env sched pl team needed duration isQ fuel (current + 1)
      | none => get_next_go env sched pl team needed duration isQ fuel (jumpTarget current)

def get_next_working_time_with_capacity (env : Env) (sched : List (String × SchedEntry))
    (current : Nat) (pl team : String) (needed duration : Nat) (isQ : Bool) :
    Option (Nat × String) :=
  get_next_go env sched pl team needed duration isQ 5000 current

/-- Duration·headcount minutes already scheduled on a team (the load metric
of `assign_quality_team_balanced`). -/
def scheduledMinutesFor (sched : List (String × SchedEntry)) (team : String) : Nat :=
  sched.foldl (fun acc p =>
    if p.2.team = team then acc + p.2.duration * p.2.mechanics_required else acc) 0

/-- `assign_quality_team_balanced` (scheduler.py lines 1419-1447): among
quality teams working `shift` with capacity ≥ `needed`, the first one of
minimal load (Python `min` keeps the first minimum). -/
def assign_quality_team_balanced (env : Env) (sched : List (String × SchedEntry))
    (shift : String) (needed : Nat) : Option String :=
  let available := (env.qualityTeamShifts.filter (fun p => p.2.contains shift)).map (·.1)
  if available.isEmpty then none
  else
    let loads := available.filterMap (fun team =>
      let cap := (alookup env.qualityTeamCapacity team).getD 0
      if cap < needed then none else some (team, scheduledMinutesFor sched team))
    match loads with
    | [] => none
    | x :: xs => some ((xs.foldl (fun best p => if p.2 < best.2 then p else best) x).1)

/-- `get_earliest_start_for_late_part` (scheduler.py lines 903-915): on-dock
date plus the late-part delay, snapped to 06:00 of that day; tasks with no
on-dock date start at the epoch. -/
def get_earliest_start_for_late_part (env : Env) (tid : String) : Nat :=
  match alookup env.onDockDates tid with
  | none => startDate
  | some onDock => dayOf (onDock + env.latePartDelayDays * 1440) * 1440 + 360

/-! ## Exact numeric model of the Python floats

The priority computation works in Python floats.  Every value that arises
(the priority formula, the sentinel constants and the `+0.1` retry
penalties) is an exact small decimal, so it is modelled by exact fractions.
`PyNum` is an unnormalised `num / den` pair with `den` positive by
construction; it stays kernel-reducible, which `Rat` (whose arithmetic is
irreducible) is not.  Comparisons are by cross-multiplication, matching
rational (and hence, for these values, float) comparison. -/

structure PyNum where
  num : Int
  den : Nat
deriving Repr, DecidableEq

instance : OfNat PyNum n := ⟨⟨(n : Int), 1⟩⟩
instance : Neg PyNum := ⟨fun a => ⟨-a.num, a.den⟩⟩
instance : IntCast PyNum := ⟨fun n => ⟨n, 1⟩⟩
instance : NatCast PyNum := ⟨fun n => ⟨(n : Int), 1⟩⟩
instance : Add PyNum := ⟨fun a b => ⟨a.num * (b.den : Int) + b.num * (a.den : Int), a.den * b.den⟩⟩
instance : Sub PyNum := ⟨fun a b => ⟨a.num * (b.den : Int) - b.num * (a.den : Int), a.den * b.den⟩⟩
instance : Mul PyNum := ⟨fun a b => ⟨a.num * b.num, a.den * b.den⟩⟩

/-- Division, used only with positive divisors (the source divides by 10). -/
instance : Div PyNum := ⟨fun a b => ⟨a.num * (b.den : Int), a.den * b.num.natAbs⟩⟩

/-- Value comparison `a < b` (cross-multiplication; denominators are
positive for every value built here). -/
def PyNum.ltB (a b : PyNum) : Bool := decide (a.num * (b.den : Int) < b.num * (a.den : Int))

/-- Value equality `a == b`. -/
def PyNum.eqv (a b : PyNum) : Bool := decide (a.num * (b.den : Int) = b.num * (a.den : Int))

/-! ## Dependency maps and product resolution -/

/-- The relationship strings that create dependency edges in
`schedule_tasks` (both branches of the source add the same edges). -/
def relOk (r : String) : Bool :=
  r = "Finish <= Start" || r = "Finish = Start" || r = "Start <= Start"

/-- `dependencies[t]`: predecessors of `t`, accumulated into a set in the
source; modelled as the deduplicated first-occurrence list. -/
def depsOf (env : Env) (t : String) : List String :=
  dedupKeep (env.constraints.filterMap
    (fun c => if relOk c.Relationship && c.Second = t then some c.First else none))

/-- `dependents[t]`: successors of `t`. -/
def dependentsOf (env : Env) (t : String) : List String :=
  dedupKeep (env.constraints.filterMap
    (fun c => if relOk c.Relationship && c.First = t then some c.Second else none))

/-- Python truthiness of an optional string (`if not product_line` treats
both `None` and `""` as falsy). -/
def defalsy : Option String → Option String
  | some s => if s = "" then none else some s
  | none => none

/-- Product-line resolution inside the scheduling loop (scheduler.py lines
1028-1034): the instance's own `product_line` field, else the prefix parsed
back from the task id. -/
def resolveProductLine (env : Env) (tid : String) : Option String :=
  let pl0 : Option String :=
    match alookup env.tasks tid with
    | some info => info.product_line
    | none => none
  match defalsy pl0 with
  | some s => some s
  | none => defalsy ((parse_product_task_id tid.data).1.map (fun cs => String.mk cs))

/-- `calculate_critical_path_length` (scheduler.py lines 1449-1474):
duration-weighted longest path to a terminal, following constraints whose
`First` is the node and whose `Second` is a live task.  The source recurses
with memoization over an acyclic graph; here fuel bounds the depth
(`env.tasks.length` suffices on any acyclic input). -/
def critical_path_length (env : Env) : Nat → String → Nat
  | 0, t => (alookup env.tasks t).elim 0 (·.duration)
  | fuel + 1, t =>
    let succs := env.constraints.filterMap (fun c =>
      if c.First = t && (alookup env.tasks c.Second).isSome then some c.Second else none)
    (alookup env.tasks t).elim 0 (·.duration)
      + succs.foldl (fun acc s => max acc (critical_path_length env fuel s)) 0

/-- Product-line resolution inside `calculate_task_priority` (task-to-product
table first, then the instance field, then the parsed id prefix). -/
def priorityProductLine (env : Env) (tid : String) : Option String :=
  let pl0 : Option String :=
    match alookup env.taskToProduct tid with
    | some p => some p
    | none =>
      match alookup env.tasks tid with
      | some info => info.product_line
      | none => none
  match defalsy pl0 with
  | some s => some s
  | none => defalsy ((parse_product_task_id tid.data).1.map (fun cs => String.mk cs))

/-- `calculate_task_priority` (scheduler.py lines 1476-1531).  `now` is the
`datetime.now()` reading (in minutes); `days_to_delivery` floors the
difference to whole days exactly as `timedelta.days` does.  The Python
float arithmetic is modelled exactly over `Rat` (the only non-integer term
is `duration / 10`). -/
def calculate_task_priority (env : Env) (now : Nat) (tid : String) : PyNum :=
  if env.latePartTasks.contains tid then -2000
  else if (alookup env.qualityInspections tid).isSome then -1000
  else if env.reworkTasks.contains tid then -500
  else
    match priorityProductLine env tid with
    | none => 999999
    | some pl =>
      match alookup env.deliveryDates pl with
      | none => 999999
      | some delivery =>
        let daysToDelivery : Int := Int.fdiv ((delivery : Int) - (now : Int)) 1440
        let cp := critical_path_length env env.tasks.length tid
        let dependentCount := (env.constraints.filter (fun c => c.First = tid)).length
        let dur := (alookup env.tasks tid).elim 0 (·.duration)
        ((100 : PyNum) - (daysToDelivery : PyNum)) * 10 + ((10000 : PyNum) - (cp : PyNum)) * 5
          + ((100 : PyNum) - (dependentCount : PyNum)) * 3 + ((100 : PyNum) - (dur : PyNum) / 10) * 2

/-! ## The scheduling loop (`schedule_tasks`, scheduler.py lines 917-1187)

State fields mirror the loop locals.  The heap of `(priority, task_id)`
pairs is modelled as a list whose pop removes the lexicographically least
pair, which is exactly what `heapq.heappop` returns; the iteration cap
`total_tasks * 10` becomes the fuel.  `retry_count` is omitted: the source
only ever resets it to 0, so its `< max_retries` test never fails. -/

structure LoopState where
  sched : List (String × SchedEntry)
  ready : List (PyNum × String)
  scheduledCount : Nat
  failedTasks : List String
  retryCounts : List (String × Nat)
deriving Repr

/-- Lexicographic comparison of strings by code point, as Python compares
`str` values (kernel-reducible, unlike the library order on `String`). -/
def charListLt : List Char → List Char → Bool
  | [], [] => false
  | [], _ :: _ => true
  | _ :: _, [] => false
  | a :: as, b :: bs =>
    if a < b then true
    else if a = b then charListLt as bs
    else false

def strLt (a b : String) : Bool := charListLt a.data b.data

/-- Lexicographic order on `(priority, task_id)` as Python compares the
heap tuples. -/
def keyLt (a b : PyNum × String) : Bool :=
  if PyNum.ltB a.1 b.1 then true
  else if PyNum.eqv a.1 b.1 then strLt a.2 b.2 else false

/-- Remove the first occurrence of `x`. -/
def eraseFirst : List (PyNum × String) → (PyNum × String) → List (PyNum × String)
  | [], _ => []
  | y :: ys, x => if y = x then ys else y :: eraseFirst ys x

/-- `heapq.heappop`: the least pair and the rest of the heap. -/
def popMin (l : List (PyNum × String)) : Option ((PyNum × String) × List (PyNum × String)) :=
  match l with
  | [] => none
  | x :: xs =>
    let m := xs.foldl (fun best y => if keyLt y best then y else best) x
    some (m, eraseFirst l m)

def addFailed (l : List String) (t : String) : List String :=
  if l.contains t then l else l ++ [t]

def retryOf (st : LoopState) (t : String) : Nat := (alookup st.retryCounts t).getD 0

/-- Is `d` scheduled or permanently failed? -/
def resolvedB (sched : List (String × SchedEntry)) (failed : List String) (d : String) : Bool :=
  (alookup sched d).isSome || failed.contains d

/-- Dict update for `self.task_schedule[task_id] = {...}`. -/
def insertSched (sched : List (String × SchedEntry)) (k : String) (v : SchedEntry) :
    List (String × SchedEntry) := aset sched k v

/-- The dependency fold of the loop body (scheduler.py lines 1057-1076):
raise `earliest` to each scheduled predecessor's end, except that a
`Finish = Start` predecessor overwrites it with that end. -/
def isFinishEqualsStart (env : Env) (dep tid : String) : Bool :=
  env.constraints.any
    (fun c => c.First = dep && c.Second = tid && c.Relationship = "Finish = Start")

def computeEarliest (env : Env) (sched : List (String × SchedEntry)) (tid : String)
    (init : Nat) : Nat :=
  (depsOf env tid).foldl (fun acc dep =>
    match alookup sched dep with
    | some s => if isFinishEqualsStart env dep tid then s.end_time else max acc s.end_time
    | none => acc) init

/-- The quality branch of the loop body (scheduler.py lines 1082-1108): for
each shift in order, pick the balanced team and search; keep the strictly
earliest feasible start (the first success wins ties).  The result records
the shift used for team selection, as the source does. -/
def qualitySearch (env : Env) (sched : List (String × SchedEntry)) (earliest : Nat)
    (pl : String) (needed duration : Nat) : Option (Nat × String × String) :=
  (["1st", "2nd", "3rd"]).foldl (fun best sh =>
    match assign_quality_team_balanced env sched sh needed with
    | none => best
    | some tm =>
      match get_next_working_time_with_capacity env sched earliest pl tm needed duration true with
      | none => best
      | some (ts, _) =>
        match best with
        | none => some (ts, tm, sh)
        | some (bs, _, _) => if ts < bs then some (ts, tm, sh) else best) none

/-- The recovery pushes taken when the heap runs empty with work remaining
(scheduler.py lines 988-1008): every unscheduled, unfailed task whose
predecessors are all scheduled or failed re-enters the heap. -/
def recoveryPushes (env : Env) (prio : String → PyNum) (st : LoopState) : List (PyNum × String) :=
  (env.tasks.map (·.1)).filterMap (fun t =>
    if (alookup st.sched t).isNone && ¬ st.failedTasks.contains t
        && ((depsOf env t).filter (fun d => ¬ resolvedB st.sched st.failedTasks d)).isEmpty
    then some (prio t, t) else none)

inductive StepRes where
  | halt (out : List (String × SchedEntry))
  | next (st : LoopState)
deriving Repr

/-- The recovery prefix of the loop body: when the heap is empty with work
remaining, re-push every ready unscheduled task. -/
def recoverState (env : Env) (prio : String → PyNum) (total : Nat) (st : LoopState) : LoopState :=
  if st.ready.isEmpty && st.scheduledCount + st.failedTasks.length < total
  then { st with ready := st.ready ++ recoveryPushes env prio st } else st

/-- The `earliest_start` seed before the dependency fold: the epoch, or for
a late part the on-dock date plus delay snapped to 06:00. -/
def earliestInit (env : Env) (t : String) : Nat :=
  if env.latePartTasks.contains t
  then max startDate (get_earliest_start_for_late_part env t) else startDate

/-- The capacity-aware slot search for a popped task: the quality branch
tries each shift's balanced team, the mechanic branch searches on the
instance's own team (scheduler.py lines 1082-1121). -/
def searchResult (env : Env) (sched : List (String × SchedEntry)) (t pl : String) :
    Option (Nat × String × String) :=
  let info := (alookup env.tasks t).getD defaultTaskInfo
  let earliest := computeEarliest env sched t (earliestInit env t)
  if info.is_quality then
    qualitySearch env sched earliest pl info.mechanics_required info.duration
  else
    match get_next_working_time_with_capacity env sched earliest pl info.team
        info.mechanics_required info.duration false with
    | some (ts, sh) => some (ts, info.team, sh)
    | none => none

/-- The schedule entry recorded for a placed task. -/
def mkEntry (env : Env) (t pl : String) (ts : Nat) (team sh : String) : SchedEntry :=
  let info := (alookup env.tasks t).getD defaultTaskInfo
  { start_time := ts, end_time := ts + info.duration, team := team, product_line := pl,
    duration := info.duration, mechanics_required := info.mechanics_required,
    is_quality := info.is_quality, task_type := info.task_type, shift := sh }

/-- The placement of a successfully searched task: record the assignment
and push every dependent whose predecessors are now all scheduled or
failed. -/
def successState (env : Env) (prio : String → PyNum) (st : LoopState) (t : String)
    (rest : List (PyNum × String)) (pl : String) (ts : Nat) (team sh : String) : LoopState :=
  let sched2 := insertSched st.sched t (mkEntry env t pl ts team sh)
  let ready2 := (dependentsOf env t).foldl (fun acc dep =>
    if (alookup sched2 dep).isSome || st.failedTasks.contains dep then acc
    else if (depsOf env dep).all (fun d => resolvedB sched2 st.failedTasks d)
    then acc ++ [(prio dep, dep)] else acc) rest
  { sched := sched2, ready := ready2, scheduledCount := st.scheduledCount + 1,
    failedTasks := st.failedTasks, retryCounts := st.retryCounts }

/-- The retry bookkeeping when the capacity search finds no slot: bump the
retry count, requeue with a 0.1 priority penalty below three failures, and
mark the task permanently failed at the third. -/
def failState (st : LoopState) (p : PyNum) (t : String)
    (rest : List (PyNum × String)) : LoopState :=
  let rc := retryOf st t + 1
  if rc < 3 then
    { st with ready := rest ++ [(p + 1/10, t)], retryCounts := aset st.retryCounts t rc }
  else
    { st with
      ready := rest,
      retryCounts := aset st.retryCounts t rc,
      failedTasks := addFailed st.failedTasks t }

/-- The loop body after a successful pop. -/
def schedule_step_pop (env : Env) (prio : String → PyNum) (st : LoopState)
    (p : PyNum) (t : String) (rest : List (PyNum × String)) : StepRes :=
  if 3 ≤ retryOf st t then
    .next { st with ready := rest, failedTasks := addFailed st.failedTasks t }
  else
    match resolveProductLine env t with
    | none => .next { st with ready := rest }
    | some pl =>
      match searchResult env st.sched t pl with
      | none => .next (failState st p t rest)
      | some (ts, team, sh) => .next (successState env prio st t rest pl ts team sh)

/-- The pop-and-place part of the loop body. -/
def schedule_step_core (env : Env) (prio : String → PyNum) (st : LoopState) : StepRes :=
  match popMin st.ready with
  | none => .halt st.sched
  | some ((p, t), rest) => schedule_step_pop env prio st p t rest

/-- One iteration of the scheduling `while` loop. -/
def schedule_step (env : Env) (prio : String → PyNum) (total : Nat) (st : LoopState) : StepRes :=
  schedule_step_core env prio (recoverState env prio total st)

/-- The scheduling `while` loop; fuel = `max_iterations = total_tasks * 10`. -/
def schedule_loop (env : Env) (prio : String → PyNum) (total : Nat) :
    Nat → LoopState → List (String × SchedEntry)
  | 0, st => st.sched
  | fuel + 1, st =>
    if st.ready.isEmpty && ¬ st.scheduledCount < total then st.sched
    else
      match schedule_step env prio total st with
      | .halt out => out
      | .next st2 => schedule_loop env prio total fuel st2

/-- The initial heap: every task with no dependencies. -/
def initState (env : Env) (prio : String → PyNum) : LoopState :=
  { sched := [], scheduledCount := 0, failedTasks := [], retryCounts := [],
    ready := env.tasks.filterMap
      (fun p => if (depsOf env p.1).isEmpty then some (prio p.1, p.1) else none) }

/-- The schedule produced by `schedule_tasks` (the `self.task_schedule` it
leaves behind). -/
def schedule_tasks_sched (env : Env) (now : Nat) : List (String × SchedEntry) :=
  let prio := calculate_task_priority env now
  schedule_loop env prio env.tasks.length (env.tasks.length * 10) (initState env prio)

/-! ## DAG validation (`validate_dag`, scheduler.py lines 1188-1265)

The embedding keeps exactly the parts that decide the boolean result: the
missing-task check and the DFS cycle detection (the orphan and
reachability passes only print warnings). -/

/-- Successors of a node in the validation graph (built from every
constraint, with no relationship filter). -/
def graphSuccs (env : Env) (t : String) : List String :=
  dedupKeep (env.constraints.filterMap
    (fun c => if c.First = t then some c.Second else none))

/-- One rooted DFS of the cycle detection: returns whether a back edge was
found, together with the updated visited set.  `recStack` is the path
stack; fuel bounds the depth (one more than the number of distinct nodes
suffices since recursion only enters unvisited nodes). -/
def dfsCycle (env : Env) : Nat → List String → List String → String → Bool × List String
  | 0, visited, _, _ => (false, visited)
  | fuel + 1, visited, recStack, node =>
    let visited := visited ++ [node]
    let recStack := node :: recStack
    (graphSuccs env node).foldl (fun acc nb =>
      if acc.1 then acc
      else if ¬ acc.2.contains nb then dfsCycle env fuel acc.2 recStack nb
      else if recStack.contains nb then (true, acc.2)
      else acc) (false, visited)

/-- `validate_dag` returns `false` iff a constraint references an undefined
task or the constraint graph has a cycle. -/
def validate_dag (env : Env) : Bool :=
  let allInC := dedupKeep (env.constraints.foldl (fun acc c => acc ++ [c.First, c.Second]) [])
  if allInC.any (fun t => (alookup env.tasks t).isNone) then false
  else
    let fuel := allInC.length + 1
    ¬ (allInC.foldl (fun acc node =>
        if acc.1 then acc
        else if ¬ acc.2.contains node then dfsCycle env fuel acc.2 [] node
        else acc) (false, [])).1

/-- `schedule_tasks` (scheduler.py lines 917-933 wrap the loop): in
non-silent mode a failed DAG validation raises `ValueError`; silent mode
skips validation entirely and runs the placement loop. -/
def schedule_tasks (env : Env) (now : Nat) (silentMode : Bool) :
    Except String (List (String × SchedEntry)) :=
  if ¬ silentMode && ¬ validate_dag env then
    Except.error "DAG validation failed! Cannot proceed with scheduling."
  else Except.ok (schedule_tasks_sched env now)

/-! ## Slack (`calculate_slack_time`, scheduler.py lines 1577-1639)

The float result is modelled as `Option Rat` with `none` standing for
`float('inf')`. -/

/-- Product-line resolution of `calculate_slack_time`: task-to-product
table, else the instance field, else (for ids absent from `self.tasks`) the
primary task of a quality inspection, else the parsed id prefix. -/
def slackProductLine (env : Env) (tid : String) : Option String :=
  let pl0 : Option String :=
    match alookup env.taskToProduct tid with
    | some p => some p
    | none =>
      match alookup env.tasks tid with
      | some info => info.product_line
      | none =>
        match alookup env.qualityInspections tid with
        | some primary =>
          match alookup env.taskToProduct primary with
          | some p => some p
          | none =>
            match alookup env.tasks primary with
            | some info => info.product_line
            | none => none
        | none => none
  match defalsy pl0 with
  | some s => some s
  | none => defalsy ((parse_product_task_id tid.data).1.map (fun cs => String.mk cs))

/-- The stack-based transitive-successor collection of
`calculate_slack_time`.  The stack top is the list head; newly discovered
successors of the popped node are pushed so that the last one found is
popped first, as `list.append` / `list.pop()` do.  Fuel bounds the
iteration count (each iteration pops one entry and every id is pushed at
most once, so `constraints.length + 2` suffices). -/
def allSuccessorsGo (env : Env) : Nat → List String → List String → List String
  | 0, _, acc => acc
  | fuel + 1, stack, acc =>
    match stack with
    | [] => acc
    | cur :: stackRest =>
      let found := env.constraints.foldl (fun st c =>
        if c.First = cur && ¬ (st.2.contains c.Second) then
          (c.Second :: st.1, st.2 ++ [c.Second])
        else st) (([] : List String), acc)
      allSuccessorsGo env fuel (found.1.reverse ++ stackRest) found.2

def allSuccessors (env : Env) (tid : String) : List String :=
  allSuccessorsGo env (env.constraints.length + 2) [tid] []

/-- `calculate_slack_time`: `none` models the `float('inf')` returns; an
unscheduled task with a resolvable product and delivery returns `0`. -/
def calculate_slack_time (env : Env) (sched : List (String × SchedEntry)) (tid : String) :
    Option Rat :=
  match slackProductLine env tid with
  | none => none
  | some pl =>
    match alookup env.deliveryDates pl with
    | none => none
    | some delivery =>
      let succs := allSuccessors env tid
      let totalDur := succs.foldl (fun acc s =>
        match alookup env.tasks s with
        | some i => acc + i.duration
        | none => acc) 0
      let bufferDays : Rat := (totalDur : Rat) / (8 * 60)
      let latestStart : Rat := (delivery : Rat) - (bufferDays + 2) * 1440
      match alookup sched tid with
      | some s => some ((latestStart - (s.start_time : Rat)) / 60)
      | none => some 0

/-! ## Makespan (`calculate_makespan`, scheduler.py lines 1774-1807) -/

/-- Working days (for at least one product) in the inclusive day span. -/
def countWorkingDaysSpan (env : Env) (d0 d1 : Nat) : Nat :=
  ((List.range (d1 + 1 - d0)).filter (fun i =>
    env.productTasks.any (fun p => is_working_day env ((d0 + i) * 1440) p))).length

/-- `calculate_makespan`: 0 on an empty schedule, the 999999 sentinel when
strictly fewer entries than live instances are scheduled, else the count of
working days between the earliest start and the latest end. -/
def calculate_makespan (env : Env) (sched : List (String × SchedEntry)) : Nat :=
  match sched with
  | [] => 0
  | x :: rest =>
    if sched.length < env.tasks.length then 999999
    else
      let minStart := rest.foldl (fun acc p => min acc p.2.start_time) x.2.start_time
      let maxEnd := rest.foldl (fun acc p => max acc p.2.end_time) x.2.end_time
      countWorkingDaysSpan env (dayOf minStart) (dayOf maxEnd)

/-! ## Global priority list (`generate_global_priority_list`, scheduler.py
lines 1641-1702)

Only the fields the claims mention are kept per item: task id, schedule
entry, slack hours and the assigned 1-based `global_priority` rank.  The
stable sort by `(scheduled_start, slack_hours)` is modelled by a stable
insertion sort; `none` slack (`float('inf')`) sorts above every finite
value. -/

def slackLtB : Option Rat → Option Rat → Bool
  | some a, some b => decide (a < b)
  | some _, none => true
  | none, _ => false

def itemKeyLt (a b : String × SchedEntry × Option Rat) : Bool :=
  if a.2.1.start_time < b.2.1.start_time then true
  else if a.2.1.start_time = b.2.1.start_time then slackLtB a.2.2 b.2.2
  else false

def insertStable (x : String × SchedEntry × Option Rat) :
    List (String × SchedEntry × Option Rat) → List (String × SchedEntry × Option Rat)
  | [] => [x]
  | y :: ys => if itemKeyLt x y then x :: y :: ys else y :: insertStable x ys

def stableSortItems (l : List (String × SchedEntry × Option Rat)) :
    List (String × SchedEntry × Option Rat) :=
  l.foldr insertStable []

def generate_global_priority_list (env : Env) (now : Nat) :
    List (String × SchedEntry × Option Rat × Nat) :=
  let sched := schedule_tasks_sched env now
  let data := sched.map (fun p => (p.1, p.2, calculate_slack_time env sched p.1))
  let sorted := stableSortItems data
  sorted.enum.map (fun q => (q.2.1, q.2.2.1, q.2.2.2, q.1 + 1))

/-! ## Optimizer capacity restoration (claim C7)

Each optimizer snapshots `self._original_team_capacity` /
`self._original_quality_capacity` (which hold the capacities loaded from
input and are never written after loading) and, on each of its return
paths, runs
`for team, capacity in original.items(): self.team_capacity[team] = capacity`.
`restoreCaps` is that loop; the optimizer's intermediate mutations are an
arbitrary table over the same team keys (every mutation in the source
assigns a key of the original table). -/

def restoreCaps (orig tbl : List (String × Nat)) : List (String × Nat) :=
  orig.foldl (fun acc p => aset acc p.1 p.2) tbl

/-! ## Concrete environments used in counterexamples and witnesses -/

def mkTask (dur : Nat) (team : String) (mech : Nat) (isQ : Bool) (tt : String)
    (pl : Option String) : TaskInfo :=
  { duration := dur, team := team, mechanics_required := mech, is_quality := isQ,
    task_type := tt, product_line := pl }

/-- Four tasks of one product: `A_1` (180 min, team M1) and `A_2` (120 min,
team M2) precede `A_4` (60 min, team M3), the edge from `A_2` tightly
(`Finish = Start`); the late part `A_3` (30 min, team M3) follows `A_2` and
keeps team M3 busy at the pinned minute. -/
def envC1 : Env :=
  { tasks := [("A_1", mkTask 180 "M1" 1 false "Production" (some "Product A")),
              ("A_2", mkTask 120 "M2" 1 false "Production" (some "Product A")),
              ("A_3", mkTask 30 "M3" 1 false "Late Part" (some "Product A")),
              ("A_4", mkTask 60 "M3" 1 false "Production" (some "Product A"))],
    constraints := [⟨"A_1", "A_4", "Finish <= Start"⟩,
                    ⟨"A_2", "A_4", "Finish = Start"⟩,
                    ⟨"A_2", "A_3", "Finish <= Start"⟩],
    latePartTasks := ["A_3"], reworkTasks := [], onDockDates := [], latePartDelayDays := 1,
    teamShifts := [("M1", ["1st"]), ("M2", ["1st"]), ("M3", ["1st"])],
    qualityTeamShifts := [],
    teamCapacity := [("M1", 1), ("M2", 1), ("M3", 1)],
    qualityTeamCapacity := [],
    holidays := [], deliveryDates := [], taskToProduct := [],
    qualityInspections := [], productTasks := ["Product A"] }

/-- One 120-minute task on a team that works only the 3rd shift: it is
placed at Friday 23:00 and runs into Saturday. -/
def envC3 : Env :=
  { tasks := [("A_1", mkTask 120 "M" 1 false "Production" (some "Product A"))],
    constraints := [], latePartTasks := [], reworkTasks := [], onDockDates := [],
    latePartDelayDays := 1,
    teamShifts := [("M", ["3rd"])], qualityTeamShifts := [],
    teamCapacity := [("M", 1)], qualityTeamCapacity := [],
    holidays := [], deliveryDates := [], taskToProduct := [],
    qualityInspections := [], productTasks := ["Product A"] }

/-- Two independent tasks of different products contending for one team;
their delivery dates straddle a whole-day boundary relative to the two
clock readings 360 and 1000, so the priority order flips between runs. -/
def env8 : Env :=
  { tasks := [("A_1", mkTask 60 "M" 1 false "Production" (some "Product A")),
              ("B_1", mkTask 60 "M" 1 false "Production" (some "Product B"))],
    constraints := [], latePartTasks := [], reworkTasks := [], onDockDates := [],
    latePartDelayDays := 1,
    teamShifts := [("M", ["1st"])], qualityTeamShifts := [],
    teamCapacity := [("M", 1)], qualityTeamCapacity := [],
    holidays := [], deliveryDates := [("Product A", 14400), ("Product B", 15000)],
    taskToProduct := [],
    qualityInspections := [], productTasks := ["Product A", "Product B"] }

/-- A two-task dependency cycle. -/
def envC9 : Env :=
  { tasks := [("A_1", mkTask 10 "M" 1 false "Production" (some "Product A")),
              ("A_2", mkTask 10 "M" 1 false "Production" (some "Product A"))],
    constraints := [⟨"A_1", "A_2", "Finish <= Start"⟩, ⟨"A_2", "A_1", "Finish <= Start"⟩],
    latePartTasks := [], reworkTasks := [], onDockDates := [], latePartDelayDays := 1,
    teamShifts := [("M", ["1st"])], qualityTeamShifts := [],
    teamCapacity := [("M", 1)], qualityTeamCapacity := [],
    holidays := [], deliveryDates := [], taskToProduct := [],
    qualityInspections := [], productTasks := ["Product A"] }

/-- One task whose team works no shift at all: every capacity search
exhausts its 5000-step bound. -/
def envC6 : Env :=
  { tasks := [("A_1", mkTask 60 "M" 1 false "Production" (some "Product A"))],
    constraints := [], latePartTasks := [], reworkTasks := [], onDockDates := [],
    latePartDelayDays := 1,
    teamShifts := [], qualityTeamShifts := [],
    teamCapacity := [("M", 1)], qualityTeamCapacity := [],
    holidays := [], deliveryDates := [], taskToProduct := [],
    qualityInspections := [], productTasks := ["Product A"] }

def sampleEntry : SchedEntry :=
  { start_time := 1380, end_time := 1500, team := "M", product_line := "Product A",
    duration := 120, mechanics_required := 1, is_quality := false,
    task_type := "Production", shift := "3rd" }

/-- A one-task heap state about to pop a task whose capacity search will
fail. -/
def stC6a : LoopState :=
  { sched := [], ready := [(0, "A_1")], scheduledCount := 0, failedTasks := [],
    retryCounts := [] }

/-- A drained state holding one permanently failed task at its third retry. -/
def stC6b : LoopState :=
  { sched := [], ready := [], scheduledCount := 0, failedTasks := ["A_1"],
    retryCounts := [("A_1", 3)] }

/-! # Theorems -/


theorem replaceDropAll_of_not_hasSub (pat : List Char) :
    ∀ s, hasSub pat s = false → replaceDropAll pat s = s := by
  intro s
  induction s with
  | nil => intro _; rw [replaceDropAll]
  | cons c rest ih =>
    intro h
    rw [hasSub] at h
    simp only [Bool.or_eq_false_iff] at h
    rw [replaceDropAll]
    rw [dif_neg (by simp [h.1])]
    rw [ih h.2]

theorem replaceDropAll_append_self (pat : List Char) (hp : pat ≠ []) (x : List Char) :
    replaceDropAll pat (pat ++ x) = replaceDropAll pat x := by
  obtain ⟨c, rest, rfl⟩ : ∃ c rest, pat = c :: rest := by
    cases pat with
    | nil => exact absurd rfl hp
    | cons c rest => exact ⟨c, rest, rfl⟩
  rw [List.cons_append, replaceDropAll]
  rw [dif_pos ⟨hp, by simpa using List.prefix_append (c :: rest) x⟩]
  congr 1
  simpa using List.drop_left (c :: rest) x

theorem splitOnChar_no_sep (sep : Char) :
    ∀ b : List Char, b.contains sep = false → splitOnChar sep b = [b] := by
  intro b
  induction b with
  | nil => intro _; rfl
  | cons c rest ih =>
    intro h
    simp only [List.contains_cons, Bool.or_eq_false_iff, beq_eq_false_iff_ne] at h
    rw [splitOnChar]
    simp only [ih (by simpa using h.2)]
    rw [if_neg (by exact fun hc => h.1 (by simp [hc]))]

theorem splitOnChar_append (sep : Char) (a b : List Char) (ha : a.contains sep = false) :
    splitOnChar sep (a ++ sep :: b) = a :: splitOnChar sep b := by
  induction a with
  | nil =>
    simp only [List.nil_append]
    rw [splitOnChar, if_pos rfl]
  | cons c rest ih =>
    simp only [List.contains_cons, Bool.or_eq_false_iff, beq_eq_false_iff_ne] at ha
    rw [List.cons_append, splitOnChar]
    simp only [ih (by simpa using ha.2)]
    rw [if_neg (by exact fun hc => ha.1 (by simp [hc]))]

theorem natDigits_mem_digits :
    ∀ m c, c ∈ natDigits m → c ∈ ['0','1','2','3','4','5','6','7','8','9'] := by
  intro m
  induction m using natDigits.induct with
  | case1 m h =>
    intro c hc
    rw [natDigits, dif_pos h] at hc
    simp only [List.mem_singleton] at hc
    subst hc
    interval_cases m <;> decide
  | case2 m h ih =>
    intro c hc
    rw [natDigits, dif_neg h] at hc
    rcases List.mem_append.mp hc with h1 | h1
    · exact ih c h1
    · simp only [List.mem_singleton] at h1
      subst h1
      have hlt : m % 10 < 10 := Nat.mod_lt _ (by omega)
      set r := m % 10 with hr
      interval_cases r <;> decide

theorem natDigits_ne_nil (m : Nat) : natDigits m ≠ [] := by
  rw [natDigits]
  split
  · simp
  · simp

theorem parseDigits_natDigits (m : Nat) : parseDigits (natDigits m) = some m := by
  induction m using natDigits.induct with
  | case1 m h =>
    rw [natDigits, dif_pos h]
    rw [parseDigits]
    simp only [List.isEmpty_cons, if_false, List.foldl_cons, List.foldl_nil]
    have hd : digitVal (Char.ofNat (48 + m)) = some m := by
      interval_cases m <;> decide
    simp [hd]
  | case2 m h ih =>
    rw [natDigits, dif_neg h]
    rw [parseDigits]
    have hne : (natDigits (m / 10) ++ [Char.ofNat (48 + m % 10)]).isEmpty = false := by
      simp [natDigits_ne_nil]
    rw [if_neg (by simp [hne])]
    rw [List.foldl_append]
    have hfold : (natDigits (m / 10)).foldl (fun acc c =>
        match acc, digitVal c with
        | some a, some d => some (a * 10 + d)
        | _, _ => none) (some 0) = some (m / 10) := by
      have := ih
      rw [parseDigits, if_neg (by simp [natDigits_ne_nil])] at this
      exact this
    rw [hfold]
    simp only [List.foldl_cons, List.foldl_nil]
    have hlt : m % 10 < 10 := Nat.mod_lt _ (by omega)
    have hd : digitVal (Char.ofNat (48 + m % 10)) = some (m % 10) := by
      set r := m % 10 with hr
      interval_cases r <;> decide
    simp only [hd]
    congr 1
    omega

theorem dropWhile_eq_self_of_none {p : Char → Bool} :
    ∀ s : List Char, (∀ c ∈ s, p c = false) → s.dropWhile p = s := by
  intro s h
  cases s with
  | nil => rfl
  | cons c rest =>
    rw [List.dropWhile_cons, if_neg (by simp [h c (List.mem_cons_self c rest)])]

theorem trimSpaces_eq_self (s : List Char) (h : ∀ c ∈ s, c ≠ ' ') :
    trimSpaces s = s := by
  rw [trimSpaces]
  rw [dropWhile_eq_self_of_none s (by intro c hc; simp [h c hc])]
  rw [dropWhile_eq_self_of_none s.reverse
    (by intro c hc; simp [h c (List.mem_reverse.mp hc)])]
  exact List.reverse_reverse s

theorem natDigits_ne_space (m : Nat) : ∀ c ∈ natDigits m, c ≠ ' ' := by
  intro c hc
  have := natDigits_mem_digits m c hc
  fin_cases this <;> decide

theorem natDigits_ne_underscore (m : Nat) : (natDigits m).contains '_' = false := by
  rw [List.contains_eq_any_beq]
  rw [List.any_eq_false]
  intro c hc
  have := natDigits_mem_digits m c hc
  fin_cases this <;> decide

theorem intToChars_no_underscore (n : Int) : (intToChars n).contains '_' = false := by
  rw [intToChars]
  split
  · rw [List.contains_cons]
    simp only [Bool.or_eq_false_iff]
    exact ⟨by decide, natDigits_ne_underscore _⟩
  · exact natDigits_ne_underscore _

theorem pyParseInt_intToChars (n : Int) : pyParseInt (intToChars n) = some n := by
  rw [pyParseInt]
  by_cases hn : n < 0
  · rw [intToChars, if_pos hn]
    rw [trimSpaces_eq_self ('-' :: natDigits n.natAbs)
      (by
        intro c hc
        rcases List.mem_cons.mp hc with h | h
        · subst h; decide
        · exact natDigits_ne_space _ c h)]
    rw [pyParseIntCore]
    rw [if_pos rfl]
    rw [parseDigits_natDigits]
    show some (-(n.natAbs : Int)) = some n
    congr 1
    omega
  · rw [intToChars, if_neg hn]
    obtain ⟨c, rest, hcr⟩ : ∃ c rest, natDigits n.natAbs = c :: rest := by
      cases hd : natDigits n.natAbs with
      | nil => exact absurd hd (natDigits_ne_nil _)
      | cons c rest => exact ⟨c, rest, rfl⟩
    rw [hcr]
    rw [trimSpaces_eq_self (c :: rest) (by rw [← hcr]; exact natDigits_ne_space _)]
    have hcmem : c ∈ natDigits n.natAbs := by rw [hcr]; exact List.mem_cons_self _ _
    have hdig := natDigits_mem_digits _ c hcmem
    have hc1 : ¬ c = '-' := by fin_cases hdig <;> decide
    have hc2 : ¬ c = '+' := by fin_cases hdig <;> decide
    rw [pyParseIntCore, if_neg hc1, if_neg hc2, ← hcr, parseDigits_natDigits]
    show some ((n.natAbs : Int)) = some n
    congr 1
    omega

theorem C10_roundtrip_general (x : List Char) (n : Int)
    (hx1 : x.contains '_' = false) (hx2 : hasSub ("Product ".data) x = false) :
    parse_product_task_id (create_product_task_id ("Product ".data ++ x) n)
      = (some ("Product ".data ++ x), some n) := by
  rw [create_product_task_id]
  rw [replaceDropAll_append_self _ (by decide) x]
  rw [replaceDropAll_of_not_hasSub _ x hx2]
  rw [parse_product_task_id]
  rw [splitOnChar_append '_' x (intToChars n) hx1]
  rw [splitOnChar_no_sep '_' (intToChars n) (intToChars_no_underscore n)]
  simp only [parseFromParts]
  rw [pyParseInt_intToChars]

/-- C10: counterexample to the claim as stated.  The product name
`"Product Product B"` has the form `"Product X"` with `X = "Product B"`
containing no underscore, yet the roundtrip does not return it:
`str.replace("Product ", "")` removes BOTH occurrences, so parsing yields
`"Product B"` instead. -/
theorem C10_roundtrip_counterexample :
    ("Product B".data).contains '_' = false ∧
    parse_product_task_id (create_product_task_id ("Product Product B".data) 7)
      ≠ (some ("Product Product B".data), some 7) := by
  constructor
  · decide
  · have h1 : "Product Product B".data = "Product ".data ++ "Product B".data := by decide
    have h2 : "Product B".data = "Product ".data ++ "B".data := by decide
    have h3 : intToChars 7 = ['7'] := by simp [intToChars, natDigits]
    rw [create_product_task_id, h1, replaceDropAll_append_self _ (by decide),
        h2, replaceDropAll_append_self _ (by decide),
        replaceDropAll_of_not_hasSub _ _ (by decide), h3]
    decide

/-- C10 (amended): for a product name `"Product " ++ x` whose initial `x`
contains no underscore AND no occurrence of the substring `"Product "`,
`parse_product_task_id` inverts `create_product_task_id` exactly; and on
every string argument, `parse_product_task_id` either returns
`(None, None)` or the argument splits on its single underscore into a
prefix and a Python-int-parseable suffix (so no exception escapes). -/
theorem C10_parse_create_id (x : List Char) (n : Int)
    (hx1 : x.contains '_' = false) (hx2 : hasSub ("Product ".data) x = false) :
    parse_product_task_id (create_product_task_id ("Product ".data ++ x) n)
      = (some ("Product ".data ++ x), some n) ∧
    ∀ s : List Char,
      parse_product_task_id s = (none, none) ∨
      ∃ a b m, splitOnChar '_' s = [a, b] ∧ pyParseInt b = some m ∧
        parse_product_task_id s = (some ("Product ".data ++ a), some m) := by
  refine ⟨C10_roundtrip_general x n hx1 hx2, ?_⟩
  intro s
  rw [parse_product_task_id]
  rcases hp : splitOnChar '_' s with _ | ⟨a, _ | ⟨b, _ | ⟨c, rest⟩⟩⟩
  · left; rfl
  · left; rfl
  · rcases hq : pyParseInt b with _ | m
    · left; simp [parseFromParts, hq]
    · right; exact ⟨a, b, m, rfl, hq, by simp [parseFromParts, hq]⟩
  · left; rfl

/-- C10 witness: the amended roundtrip at the concrete product
`"Product A"` and task number 80. -/
theorem C10_parse_create_id_witness :
    parse_product_task_id (create_product_task_id ("Product ".data ++ "A".data) 80)
      = (some ("Product ".data ++ "A".data), some 80) :=
  (C10_parse_create_id ("A".data) 80 (by decide) (by decide)).1


theorem alookup_aset_self {β : Type} (l : List (String × β)) (k : String) (v : β) :
    alookup (aset l k v) k = some v := by
  induction l with
  | nil => simp [aset, alookup]
  | cons p rest ih =>
    rw [aset]
    by_cases h : p.1 = k
    · rw [if_pos h, alookup, if_pos h]
    · rw [if_neg h, alookup, if_neg h]
      exact ih

theorem alookup_aset_ne {β : Type} (l : List (String × β)) (k k2 : String) (v : β)
    (h : k ≠ k2) : alookup (aset l k v) k2 = alookup l k2 := by
  induction l with
  | nil => simp [aset, alookup, h]
  | cons p rest ih =>
    rw [aset]
    by_cases hp : p.1 = k
    · rw [if_pos hp]
      rw [alookup, alookup]
      have hne : ¬ p.1 = k2 := by rw [hp]; exact h
      rw [if_neg hne, if_neg hne]
    · rw [if_neg hp, alookup, alookup]
      by_cases hq : p.1 = k2
      · rw [if_pos hq, if_pos hq]
      · rw [if_neg hq, if_neg hq]
        exact ih

theorem alookup_none_of_not_mem {β : Type} (l : List (String × β)) (k : String)
    (h : k ∉ akeys l) : alookup l k = none := by
  induction l with
  | nil => rfl
  | cons p rest ih =>
    rw [alookup]
    rw [akeys, List.map_cons] at h
    simp only [List.mem_cons] at h
    rw [if_neg (fun hp => h (Or.inl hp.symm))]
    exact ih (fun hm => h (Or.inr hm))



theorem restoreCaps_not_mem (orig : List (String × Nat)) :
    ∀ tbl k, k ∉ akeys orig → alookup (restoreCaps orig tbl) k = alookup tbl k := by
  induction orig with
  | nil => intro tbl k _; rfl
  | cons p rest ih =>
    intro tbl k hk
    rw [akeys, List.map_cons] at hk
    simp only [List.mem_cons] at hk
    simp only [restoreCaps, List.foldl_cons]
    have h1 : alookup (List.foldl (fun acc q => aset acc q.1 q.2) (aset tbl p.1 p.2) rest) k
        = alookup (aset tbl p.1 p.2) k := ih (aset tbl p.1 p.2) k (fun hm => hk (Or.inr hm))
    simp only [restoreCaps] at h1
    rw [h1]
    exact alookup_aset_ne tbl p.1 k p.2 (fun he => hk (Or.inl he.symm))

theorem restoreCaps_mem (orig : List (String × Nat)) :
    ∀ tbl k, k ∈ akeys orig → (akeys orig).Nodup →
      alookup (restoreCaps orig tbl) k = alookup orig k := by
  induction orig with
  | nil => intro tbl k hk _; simp [akeys] at hk
  | cons p rest ih =>
    intro tbl k hk hnd
    rw [akeys, List.map_cons] at hk hnd
    simp only [List.mem_cons] at hk
    have hnd2 := List.nodup_cons.mp hnd
    simp only [restoreCaps, List.foldl_cons]
    rcases hk with hk | hk
    · have h1 : alookup (List.foldl (fun acc q => aset acc q.1 q.2) (aset tbl p.1 p.2) rest) k
          = alookup (aset tbl p.1 p.2) k := by
        have := restoreCaps_not_mem rest (aset tbl p.1 p.2) k
        simp only [restoreCaps] at this
        exact this (by rw [hk]; exact hnd2.1)
      rw [h1, hk, alookup_aset_self, alookup, if_pos rfl]
    · have h1 : alookup (List.foldl (fun acc q => aset acc q.1 q.2) (aset tbl p.1 p.2) rest) k
          = alookup rest k := by
        have := ih (aset tbl p.1 p.2) k hk hnd2.2
        simp only [restoreCaps] at this
        exact this
      rw [h1, alookup]
      rw [if_neg ?hne]
      case hne =>
        intro he
        exact hnd2.1 (he ▸ hk)

/-- C7: each optimizer restores both capacity tables on exit.  `origM` /
`origQ` are the `_original_*_capacity` snapshots taken at load time; the
mutated tables are arbitrary tables over the same team keys, since every
in-run mutation assigns an existing team key; `restoreCaps` is the
restoration loop run on each return path of `scenario_1_csv_headcount`
(which never mutates), `scenario_2_just_in_time_optimization` and
`scenario_3_multidimensional_optimization`.  After restoration both tables
agree with the loaded originals on every key. -/
theorem C7_optimizers_restore_original_capacities
    (origM tblM origQ tblQ : List (String × Nat))
    (hM : (akeys origM).Nodup) (hQ : (akeys origQ).Nodup)
    (hMsub : ∀ k, k ∈ akeys tblM → k ∈ akeys origM)
    (hQsub : ∀ k, k ∈ akeys tblQ → k ∈ akeys origQ) :
    (∀ k, alookup (restoreCaps origM tblM) k = alookup origM k) ∧
    (∀ k, alookup (restoreCaps origQ tblQ) k = alookup origQ k) := by
  constructor
  · intro k
    by_cases hk : k ∈ akeys origM
    · exact restoreCaps_mem origM tblM k hk hM
    · rw [restoreCaps_not_mem origM tblM k hk,
          alookup_none_of_not_mem tblM k (fun hm => hk (hMsub k hm)),
          alookup_none_of_not_mem origM k hk]
  · intro k
    by_cases hk : k ∈ akeys origQ
    · exact restoreCaps_mem origQ tblQ k hk hQ
    · rw [restoreCaps_not_mem origQ tblQ k hk,
          alookup_none_of_not_mem tblQ k (fun hm => hk (hQsub k hm)),
          alookup_none_of_not_mem origQ k hk]

/-- C7 witness: a mechanic table mutated from capacity 5 to 9 and a quality
table mutated from 3 to 1 are both restored to the loaded originals. -/
theorem C7_optimizers_restore_original_capacities_witness :
    (∀ k, alookup (restoreCaps [("M1", 5), ("M2", 2)] [("M1", 9), ("M2", 2)]) k
        = alookup [("M1", 5), ("M2", 2)] k) ∧
    (∀ k, alookup (restoreCaps [("Q1", 3)] [("Q1", 1)]) k = alookup [("Q1", 3)] k) :=
  C7_optimizers_restore_original_capacities
    [("M1", 5), ("M2", 2)] [("M1", 9), ("M2", 2)] [("Q1", 3)] [("Q1", 1)]
    (by decide) (by decide) (by decide) (by decide)



/-- C4: counterexample.  `A_1` of `env8` resolves to product `Product A`
with a delivery date, is absent from the (empty) schedule, and the claim
says its slack is `+infinity` (`none` here); the source instead returns 0. -/
theorem C4_slack_unscheduled_counterexample :
    calculate_slack_time env8 [] "A_1" = some 0 ∧
    (some (0 : Rat) : Option Rat) ≠ none := by
  constructor
  · rfl
  · simp

/-- C4 (amended): `calculate_slack_time` returns `+infinity` (`none`) when
the product line cannot be resolved or the product has no delivery date;
an instance that resolves but is not in the schedule returns 0, not
`+infinity`. -/
theorem C4_slack_infinity_cases (env : Env) (sched : List (String × SchedEntry)) (tid : String) :
    (slackProductLine env tid = none → calculate_slack_time env sched tid = none) ∧
    (∀ pl, slackProductLine env tid = some pl → alookup env.deliveryDates pl = none →
      calculate_slack_time env sched tid = none) ∧
    (∀ pl d, slackProductLine env tid = some pl → alookup env.deliveryDates pl = some d →
      alookup sched tid = none → calculate_slack_time env sched tid = some 0) := by
  refine ⟨?_, ?_, ?_⟩
  · intro h
    simp only [calculate_slack_time, h]
  · intro pl h1 h2
    simp only [calculate_slack_time, h1, h2]
  · intro pl d h1 h2 h3
    simp only [calculate_slack_time, h1, h2, h3]

/-- C4 witness: the unresolvable id `Z` yields infinite slack, and the
unscheduled instance `B_1` yields slack 0. -/
theorem C4_slack_infinity_cases_witness :
    calculate_slack_time env8 [] "Z" = none ∧
    calculate_slack_time env8 [] "B_1" = some 0 :=
  ⟨(C4_slack_infinity_cases env8 [] "Z").1 (by rfl),
   (C4_slack_infinity_cases env8 [] "B_1").2.2 "Product B" 15000 (by rfl) (by rfl) (by rfl)⟩

/-- C5: counterexample.  `env8` has two live task instances and an empty
schedule — every live instance is unscheduled — yet `calculate_makespan`
returns 0, not the 999999 sentinel the claim requires. -/
theorem C5_makespan_empty_counterexample :
    env8.tasks ≠ [] ∧ calculate_makespan env8 [] = 0 := by
  constructor
  · intro h
    simp [env8] at h
  · rfl

/-- C5 (amended): the makespan is 0 when nothing at all is scheduled, the
999999 sentinel when some but not all live instances are scheduled, and
otherwise the count of working days between the earliest start and the
latest end. -/
theorem C5_makespan_cases (env : Env) (sched : List (String × SchedEntry)) :
    (sched = [] → calculate_makespan env sched = 0) ∧
    (sched ≠ [] → sched.length < env.tasks.length → calculate_makespan env sched = 999999) ∧
    (∀ x rest, sched = x :: rest → ¬ sched.length < env.tasks.length →
      calculate_makespan env sched =
        countWorkingDaysSpan env
          (dayOf (rest.foldl (fun acc p => min acc p.2.start_time) x.2.start_time))
          (dayOf (rest.foldl (fun acc p => max acc p.2.end_time) x.2.end_time))) := by
  refine ⟨?_, ?_, ?_⟩
  · intro h
    subst h
    rfl
  · intro h1 h2
    match sched with
    | [] => exact absurd rfl h1
    | x :: rest =>
      rw [calculate_makespan]
      rw [if_pos h2]
  · intro x rest h1 h2
    subst h1
    rw [calculate_makespan]
    rw [if_neg h2]

/-- C5 witness: the three cases at concrete inputs (empty, partial, full). -/
theorem C5_makespan_cases_witness :
    calculate_makespan env8 [] = 0 ∧
    calculate_makespan env8 [("A_1", sampleEntry)] = 999999 ∧
    calculate_makespan envC3 [("A_1", sampleEntry)] = countWorkingDaysSpan envC3 0 1 :=
  ⟨(C5_makespan_cases env8 []).1 rfl,
   (C5_makespan_cases env8 [("A_1", sampleEntry)]).2.1 (by simp) (by decide),
   (C5_makespan_cases envC3 [("A_1", sampleEntry)]).2.2 ("A_1", sampleEntry) [] rfl (by decide)⟩

/-- C9: in silent mode (the mode every optimizer uses) `schedule_tasks`
never consults DAG validation and always returns the placement result,
even on the cyclic graph `envC9`; with `silent_mode = False` the same
cyclic input raises the validation error. -/
theorem C9_silent_mode_skips_dag_validation :
    (∀ env now, schedule_tasks env now true = Except.ok (schedule_tasks_sched env now)) ∧
    validate_dag envC9 = false ∧
    schedule_tasks envC9 0 false
      = Except.error "DAG validation failed! Cannot proceed with scheduling." ∧
    schedule_tasks envC9 0 true = Except.ok (schedule_tasks_sched envC9 0) := by
  refine ⟨?_, by rfl, by rfl, by rfl⟩
  intro env now
  rw [schedule_tasks]
  simp

end Aurora

namespace Aurora

/-! ### Utility lemmas for the loop invariant -/

theorem mem_addFailed (l : List String) (t x : String) :
    x ∈ addFailed l t ↔ x ∈ l ∨ x = t := by
  rw [addFailed]
  by_cases h : l.contains t
  · rw [if_pos h]
    constructor
    · exact Or.inl
    · rintro (hx | rfl)
      · exact hx
      · exact List.mem_of_elem_eq_true h
  · rw [if_neg h]
    simp [List.mem_append]

theorem resolvedB_mono_failed (sched : List (String × SchedEntry)) (f1 f2 : List String)
    (hsub : ∀ x ∈ f1, x ∈ f2) (d : String) (h : resolvedB sched f1 d = true) :
    resolvedB sched f2 d = true := by
  rw [resolvedB] at h ⊢
  rcases Bool.or_eq_true_iff.mp h with h | h
  · exact Bool.or_eq_true_iff.mpr (Or.inl h)
  · exact Bool.or_eq_true_iff.mpr
      (Or.inr (List.elem_eq_true_of_mem (hsub d (List.mem_of_elem_eq_true h))))

theorem alookup_append_of_some {β : Type} (l : List (String × β)) (q : String × β)
    (x : String) (s : β) (h : alookup l x = some s) : alookup (l ++ [q]) x = some s := by
  induction l with
  | nil => exact absurd h (by rw [alookup]; simp)
  | cons p rest ih =>
    rw [alookup] at h
    rw [List.cons_append, alookup]
    by_cases hp : p.1 = x
    · rwa [if_pos hp] at h ⊢
    · rw [if_neg hp] at h ⊢
      exact ih h

theorem alookup_append_of_none {β : Type} (l : List (String × β)) (k : String) (v : β)
    (x : String) (h : alookup l x = none) :
    alookup (l ++ [(k, v)]) x = if k = x then some v else none := by
  induction l with
  | nil =>
    rw [List.nil_append, alookup]
    by_cases hk : k = x
    · rw [if_pos hk, if_pos hk]
    · rw [if_neg hk, if_neg hk, alookup]
  | cons p rest ih =>
    rw [alookup] at h
    rw [List.cons_append, alookup]
    by_cases hp : p.1 = x
    · rw [if_pos hp] at h; exact absurd h (by simp)
    · rw [if_neg hp] at h ⊢
      exact ih h

theorem resolvedB_mono_sched (sched : List (String × SchedEntry)) (q : String × SchedEntry)
    (failed : List String) (d : String) (h : resolvedB sched failed d = true) :
    resolvedB (sched ++ [q]) failed d = true := by
  rw [resolvedB] at h ⊢
  rcases Bool.or_eq_true_iff.mp h with h | h
  · refine Bool.or_eq_true_iff.mpr (Or.inl ?_)
    rcases Option.isSome_iff_exists.mp h with ⟨s, hs⟩
    rw [alookup_append_of_some sched q d s hs]
    rfl
  · exact Bool.or_eq_true_iff.mpr (Or.inr h)

theorem aset_fresh_append {β : Type} (l : List (String × β)) (k : String) (v : β)
    (h : alookup l k = none) : aset l k v = l ++ [(k, v)] := by
  induction l with
  | nil => rfl
  | cons p rest ih =>
    rw [alookup] at h
    by_cases hp : p.1 = k
    · rw [if_pos hp] at h; exact absurd h (by simp)
    · rw [if_neg hp] at h
      rw [aset, if_neg hp, List.cons_append, ih h]

theorem akeys_append {β : Type} (l : List (String × β)) (q : String × β) :
    akeys (l ++ [q]) = akeys l ++ [q.1] := by
  simp [akeys]

theorem alookup_isSome_of_mem_akeys {β : Type} (l : List (String × β)) (x : String)
    (h : x ∈ akeys l) : (alookup l x).isSome := by
  induction l with
  | nil => simp [akeys] at h
  | cons p rest ih =>
    rw [akeys, List.map_cons, List.mem_cons] at h
    rw [alookup]
    by_cases hp : p.1 = x
    · rw [if_pos hp]; rfl
    · rw [if_neg hp]
      rcases h with h | h
      · exact absurd h.symm hp
      · exact ih h

theorem mem_akeys_of_alookup_some {β : Type} (l : List (String × β)) (x : String)
    (s : β) (h : alookup l x = some s) : x ∈ akeys l := by
  induction l with
  | nil => simp [alookup] at h
  | cons p rest ih =>
    rw [alookup] at h
    rw [akeys, List.map_cons, List.mem_cons]
    by_cases hp : p.1 = x
    · exact Or.inl hp.symm
    · rw [if_neg hp] at h
      exact Or.inr (ih h)

theorem teamUsageAt_append (l : List (String × SchedEntry)) (q : String × SchedEntry)
    (team : String) (m : Nat) :
    teamUsageAt (l ++ [q]) team m = teamUsageAt l team m +
      (if q.2.team = team ∧ q.2.start_time ≤ m ∧ m < q.2.end_time
       then q.2.mechanics_required else 0) := by
  rw [teamUsageAt, teamUsageAt, List.foldl_append, List.foldl_cons, List.foldl_nil]
  by_cases h : q.2.team = team ∧ q.2.start_time ≤ m ∧ m < q.2.end_time
  · rw [if_pos h, if_pos h]
  · rw [if_neg h, if_neg h, Nat.add_zero]

theorem eraseFirst_sublist (l : List (PyNum × String)) (x : PyNum × String) :
    (eraseFirst l x).Sublist l := by
  induction l with
  | nil => exact List.Sublist.refl _
  | cons y ys ih =>
    rw [eraseFirst]
    by_cases h : y = x
    · rw [if_pos h]; exact List.sublist_cons_self _ _
    · rw [if_neg h]; exact List.Sublist.cons₂ _ ih

theorem foldl_min_mem (x : PyNum × String) (xs : List (PyNum × String)) :
    xs.foldl (fun best y => if keyLt y best then y else best) x ∈ x :: xs := by
  induction xs generalizing x with
  | nil => simp
  | cons z zs ih =>
    rw [List.foldl_cons]
    by_cases h : keyLt z x
    · rw [if_pos h]
      have := ih z
      rcases List.mem_cons.mp this with h2 | h2
      · exact List.mem_cons.mpr (Or.inr (List.mem_cons.mpr (Or.inl h2)))
      · exact List.mem_cons.mpr (Or.inr (List.mem_cons.mpr (Or.inr h2)))
    · rw [if_neg h]
      have := ih x
      rcases List.mem_cons.mp this with h2 | h2
      · exact List.mem_cons.mpr (Or.inl h2)
      · exact List.mem_cons.mpr (Or.inr (List.mem_cons.mpr (Or.inr h2)))

theorem popMin_facts (l : List (PyNum × String)) (m : PyNum × String)
    (rest : List (PyNum × String)) (h : popMin l = some (m, rest)) :
    m ∈ l ∧ rest = eraseFirst l m := by
  match l with
  | [] => exact absurd h (by rw [popMin]; simp)
  | x :: xs =>
    rw [popMin] at h
    simp only [Option.some_inj, Prod.mk.injEq] at h
    obtain ⟨h1, h2⟩ := h
    subst h1
    subst h2
    exact ⟨foldl_min_mem x xs, rfl⟩

theorem not_mem_eraseFirst_of_nodup (l : List (PyNum × String)) (x : PyNum × String)
    (hnd : (l.map (·.2)).Nodup) (hx : x ∈ l) : x.2 ∉ (eraseFirst l x).map (·.2) := by
  induction l with
  | nil => simp at hx
  | cons y ys ih =>
    rw [List.map_cons, List.nodup_cons] at hnd
    rw [eraseFirst]
    by_cases h : y = x
    · rw [if_pos h]
      rw [h] at hnd
      exact hnd.1
    · rw [if_neg h]
      rcases List.mem_cons.mp hx with rfl | hx2
      · exact absurd rfl h
      · rw [List.map_cons, List.mem_cons]
        rintro (heq | hmem)
        · exact hnd.1 (heq ▸ List.mem_map_of_mem (·.2) hx2)
        · exact ih hnd.2 hx2 hmem

end Aurora

namespace Aurora

theorem day_decomp (t : Nat) : dayOf t * 1440 + minuteOfDay t = t := by
  rw [dayOf, minuteOfDay]
  omega

theorem minuteOfDay_lt (t : Nat) : minuteOfDay t < 1440 := Nat.mod_lt _ (by omega)

theorem jumpTarget_ge (t : Nat) : t ≤ jumpTarget t := by
  have hd := day_decomp t
  have hm := minuteOfDay_lt t
  rw [jumpTarget]
  split
  · omega
  · split
    · omega
    · split
      · omega
      · omega

theorem nextDaySix_ge (t : Nat) : t ≤ dayOf t * 1440 + 360 + 1440 := by
  have hd := day_decomp t
  have hm := minuteOfDay_lt t
  omega

theorem get_next_go_ge (env : Env) (sched : List (String × SchedEntry)) (pl team : String)
    (needed duration : Nat) (isQ : Bool) :
    ∀ fuel current ts sh,
      get_next_go env sched pl team needed duration isQ fuel current = some (ts, sh) →
      current ≤ ts := by
  intro fuel
  induction fuel with
  | zero => intro current ts sh h; exact absurd h (by rw [get_next_go]; simp)
  | succ fuel ih =>
    intro current ts sh h
    simp only [get_next_go] at h
    split at h
    · exact le_trans (nextDaySix_ge current) (ih _ _ _ h)
    · split at h
      · split at h
        · simp only [Option.some_inj, Prod.mk.injEq] at h
          obtain ⟨rfl, rfl⟩ := h
          exact le_refl _
        · exact le_trans (Nat.le_succ current) (ih _ _ _ h)
      · exact le_trans (jumpTarget_ge current) (ih _ _ _ h)

theorem get_next_go_props (env : Env) (sched : List (String × SchedEntry)) (pl team : String)
    (needed duration : Nat) (isQ : Bool) :
    ∀ fuel current ts sh,
      get_next_go env sched pl team needed duration isQ fuel current = some (ts, sh) →
      is_working_day env ts pl = true ∧
      check_team_capacity_at_time env sched team ts (ts + duration) needed = true := by
  intro fuel
  induction fuel with
  | zero => intro current ts sh h; exact absurd h (by rw [get_next_go]; simp)
  | succ fuel ih =>
    intro current ts sh h
    simp only [get_next_go] at h
    split at h
    · exact ih _ _ _ h
    · rename_i hwd
      split at h
      · split at h
        · rename_i hcap
          simp only [Option.some_inj, Prod.mk.injEq] at h
          obtain ⟨rfl, rfl⟩ := h
          refine ⟨?_, hcap⟩
          cases hw : is_working_day env current pl with
          | false => exact absurd hw hwd
          | true => rfl
        · exact ih _ _ _ h
      · exact ih _ _ _ h

theorem get_next_none_of_no_shift (env : Env) (sched : List (String × SchedEntry))
    (pl team : String) (needed duration : Nat)
    (hshift : (alookup env.teamShifts team).getD [] = []) :
    ∀ fuel current,
      get_next_go env sched pl team needed duration false fuel current = none := by
  intro fuel
  induction fuel with
  | zero => intro current; rw [get_next_go]
  | succ fuel ih =>
    intro current
    rw [get_next_go]
    split
    · exact ih _
    · have havail : availableShiftMechanic env team (minuteOfDay current) = none := by
        rw [availableShiftMechanic, hshift]
        rfl
      simp only [Bool.if_false_left, havail]
      exact ih _

theorem mem_depsOf (env : Env) (t : String) (d : String) :
    d ∈ depsOf env t ↔
      ∃ c ∈ env.constraints, relOk c.Relationship = true ∧ c.Second = t ∧ c.First = d := by
  rw [depsOf, mem_dedupKeep, List.mem_filterMap]
  constructor
  · rintro ⟨c, hc, hf⟩
    by_cases hcond : relOk c.Relationship && c.Second = t
    · rw [if_pos hcond] at hf
      simp only [Option.some_inj] at hf
      have := Bool.and_eq_true_iff.mp hcond
      exact ⟨c, hc, this.1, by simpa using this.2, hf⟩
    · rw [if_neg hcond] at hf
      exact absurd hf (by simp)
  · rintro ⟨c, hc, h1, h2, h3⟩
    refine ⟨c, hc, ?_⟩
    rw [if_pos (Bool.and_eq_true_iff.mpr ⟨h1, by simpa using h2⟩)]
    rw [h3]

theorem mem_dependentsOf (env : Env) (t : String) (d : String) :
    d ∈ dependentsOf env t ↔
      ∃ c ∈ env.constraints, relOk c.Relationship = true ∧ c.First = t ∧ c.Second = d := by
  rw [dependentsOf, mem_dedupKeep, List.mem_filterMap]
  constructor
  · rintro ⟨c, hc, hf⟩
    by_cases hcond : relOk c.Relationship && c.First = t
    · rw [if_pos hcond] at hf
      simp only [Option.some_inj] at hf
      have := Bool.and_eq_true_iff.mp hcond
      exact ⟨c, hc, this.1, by simpa using this.2, hf⟩
    · rw [if_neg hcond] at hf
      exact absurd hf (by simp)
  · rintro ⟨c, hc, h1, h2, h3⟩
    refine ⟨c, hc, ?_⟩
    rw [if_pos (Bool.and_eq_true_iff.mpr ⟨h1, by simpa using h2⟩)]
    rw [h3]

theorem depsOf_nodup (env : Env) (t : String) : (depsOf env t).Nodup :=
  dedupKeep_nodup _

theorem dependentsOf_nodup (env : Env) (t : String) : (dependentsOf env t).Nodup :=
  dedupKeep_nodup _

end Aurora

namespace Aurora

theorem computeEarliest_fold_ge_acc (env : Env) (sched : List (String × SchedEntry))
    (tid : String) :
    ∀ (l : List String) (acc : Nat),
      (∀ d ∈ l, (alookup sched d).isSome → isFinishEqualsStart env d tid = false) →
      acc ≤ l.foldl (fun acc dep =>
        match alookup sched dep with
        | some s => if isFinishEqualsStart env dep tid then s.end_time else max acc s.end_time
        | none => acc) acc := by
  intro l
  induction l with
  | nil => intro acc _; exact le_refl _
  | cons d rest ih =>
    intro acc hside
    rw [List.foldl_cons]
    cases hd : alookup sched d with
    | none =>
      exact ih acc (fun x hx => hside x (List.mem_cons_of_mem _ hx))
    | some s =>
      have hfes : isFinishEqualsStart env d tid = false :=
        hside d (List.mem_cons_self _ _) (by rw [hd]; rfl)
      rw [hfes]
      simp only [Bool.false_eq_true, if_false]
      exact le_trans (Nat.le_max_left acc s.end_time)
        (ih _ (fun x hx => hside x (List.mem_cons_of_mem _ hx)))

theorem computeEarliest_fold_ge_end (env : Env) (sched : List (String × SchedEntry))
    (tid a : String) (sa : SchedEntry) (hsa : alookup sched a = some sa) :
    ∀ (l : List String) (acc : Nat), a ∈ l → l.Nodup →
      (∀ d ∈ l, d ≠ a → (alookup sched d).isSome → isFinishEqualsStart env d tid = false) →
      sa.end_time ≤ l.foldl (fun acc dep =>
        match alookup sched dep with
        | some s => if isFinishEqualsStart env dep tid then s.end_time else max acc s.end_time
        | none => acc) acc := by
  intro l
  induction l with
  | nil => intro acc ha _ _; simp at ha
  | cons x rest ih =>
    intro acc ha hnd hside
    have hnd2 := List.nodup_cons.mp hnd
    rw [List.foldl_cons]
    by_cases hxa : x = a
    · rw [hxa, hsa]
      have hnotmem : a ∉ rest := hxa ▸ hnd2.1
      have hge : sa.end_time ≤
          (if isFinishEqualsStart env a tid then sa.end_time else max acc sa.end_time) := by
        split
        · exact le_refl _
        · exact Nat.le_max_right acc sa.end_time
      refine le_trans hge (computeEarliest_fold_ge_acc env sched tid rest _ ?_)
      intro d hd hscheduled
      by_cases hda : d = a
      · exact absurd (hda ▸ hd) hnotmem
      · exact hside d (List.mem_cons_of_mem _ hd) hda hscheduled
    · have ha2 : a ∈ rest := by
        rcases List.mem_cons.mp ha with h | h
        · exact absurd h.symm hxa
        · exact h
      have hstep : ∀ acc2 : Nat, sa.end_time ≤ rest.foldl (fun acc dep =>
          match alookup sched dep with
          | some s => if isFinishEqualsStart env dep tid then s.end_time else max acc s.end_time
          | none => acc) acc2 := by
        intro acc2
        exact ih acc2 ha2 hnd2.2 (fun d hd => hside d (List.mem_cons_of_mem _ hd))
      cases hx : alookup sched x with
      | none => exact hstep acc
      | some s =>
        split
        · exact hstep _
        · exact hstep _

theorem computeEarliest_ge (env : Env) (sched : List (String × SchedEntry))
    (tid a : String) (sa : SchedEntry) (init : Nat)
    (hmem : a ∈ depsOf env tid) (hsa : alookup sched a = some sa)
    (hfes : ∀ d, isFinishEqualsStart env d tid = true → d = a) :
    sa.end_time ≤ computeEarliest env sched tid init := by
  rw [computeEarliest]
  refine computeEarliest_fold_ge_end env sched tid a sa hsa (depsOf env tid) init hmem
    (depsOf_nodup env tid) ?_
  intro d _ hda _
  cases hf : isFinishEqualsStart env d tid with
  | false => rfl
  | true => exact absurd (hfes d hf) hda

theorem qualitySearch_props (env : Env) (sched : List (String × SchedEntry))
    (earliest : Nat) (pl : String) (needed duration : Nat) :
    ∀ ts tm sh, qualitySearch env sched earliest pl needed duration = some (ts, tm, sh) →
      ∃ r, get_next_working_time_with_capacity env sched earliest pl tm needed duration true
            = some (ts, r) := by
  rw [qualitySearch]
  have main : ∀ (shifts : List String) (best : Option (Nat × String × String)),
      (∀ ts tm sh, best = some (ts, tm, sh) →
        ∃ r, get_next_working_time_with_capacity env sched earliest pl tm needed duration true
              = some (ts, r)) →
      (∀ ts tm sh, shifts.foldl (fun best sh =>
          match assign_quality_team_balanced env sched sh needed with
          | none => best
          | some tm =>
            match get_next_working_time_with_capacity env sched earliest pl tm needed
                duration true with
            | none => best
            | some (ts, _) =>
              match best with
              | none => some (ts, tm, sh)
              | some (bs, _, _) => if ts < bs then some (ts, tm, sh) else best) best
          = some (ts, tm, sh) →
        ∃ r, get_next_working_time_with_capacity env sched earliest pl tm needed duration true
              = some (ts, r)) := by
    intro shifts
    induction shifts with
    | nil => intro best hbest; exact hbest
    | cons sh0 rest ih =>
      intro best hbest
      rw [List.foldl_cons]
      apply ih
      intro ts tm sh hstep
      cases hteam : assign_quality_team_balanced env sched sh0 needed with
      | none =>
        simp only [hteam] at hstep
        exact hbest ts tm sh hstep
      | some tm2 =>
        simp only [hteam] at hstep
        cases hnext : get_next_working_time_with_capacity env sched earliest pl tm2 needed
            duration true with
        | none =>
          simp only [hnext] at hstep
          exact hbest ts tm sh hstep
        | some pr =>
          simp only [hnext] at hstep
          match pr with
          | (ts2, r2) =>
            cases hb : best with
            | none =>
              simp only [hb] at hstep
              simp only [Option.some_inj, Prod.mk.injEq] at hstep
              obtain ⟨rfl, rfl, rfl⟩ := hstep
              exact ⟨r2, hnext⟩
            | some b3 =>
              simp only [hb] at hstep
              match b3 with
              | (bs, btm, bsh) =>
                split at hstep
                · simp only [Option.some_inj, Prod.mk.injEq] at hstep
                  obtain ⟨rfl, rfl, rfl⟩ := hstep
                  exact ⟨r2, hnext⟩
                · exact hbest ts tm sh (hb ▸ hstep)
  intro ts tm sh
  exact main ["1st", "2nd", "3rd"] none (by intro _ _ _ h; exact absurd h (by simp)) ts tm sh

end Aurora

namespace Aurora

theorem filterMap_if_eq_map_filter {α β : Type} (p : α → Bool) (f : α → β) :
    ∀ l : List α,
      l.filterMap (fun a => if p a then some (f a) else none) = (l.filter p).map f := by
  intro l
  induction l with
  | nil => rfl
  | cons x xs ih =>
    rw [List.filterMap_cons, List.filter_cons]
    by_cases h : p x
    · rw [if_pos h, if_pos h, List.map_cons, ih]
    · rw [if_neg h, if_neg h, ih]

/-- The condition under which `recoveryPushes` re-pushes a task. -/
def recoveryCond (env : Env) (st : LoopState) (t : String) : Bool :=
  (alookup st.sched t).isNone && ¬ st.failedTasks.contains t
    && ((depsOf env t).filter (fun d => ¬ resolvedB st.sched st.failedTasks d)).isEmpty

theorem recoveryPushes_eq (env : Env) (prio : String → PyNum) (st : LoopState) :
    recoveryPushes env prio st
      = ((env.tasks.map (·.1)).filter (recoveryCond env st)).map (fun t => (prio t, t)) := by
  rw [recoveryPushes]
  rw [← filterMap_if_eq_map_filter (recoveryCond env st) (fun t => (prio t, t))]
  rfl

theorem recoveryCond_spec (env : Env) (st : LoopState) (t : String)
    (h : recoveryCond env st t = true) :
    alookup st.sched t = none ∧ t ∉ st.failedTasks ∧
      ∀ d ∈ depsOf env t, resolvedB st.sched st.failedTasks d = true := by
  rw [recoveryCond] at h
  simp only [Bool.and_eq_true, decide_eq_true_eq] at h
  obtain ⟨⟨h1, h2⟩, h3⟩ := h
  refine ⟨Option.isNone_iff_eq_none.mp h1, ?_, ?_⟩
  · intro hm
    exact h2 (List.elem_eq_true_of_mem hm)
  · intro d hd
    rw [List.isEmpty_iff] at h3
    cases hr : resolvedB st.sched st.failedTasks d with
    | true => rfl
    | false =>
      have : d ∈ (depsOf env t).filter (fun d => ¬ resolvedB st.sched st.failedTasks d) :=
        List.mem_filter.mpr ⟨hd, by simp [hr]⟩
      rw [h3] at this
      simp at this

/-- The full loop-state invariant preserved by every iteration of
`schedule_tasks`. -/
structure Inv (env : Env) (st : LoopState) : Prop where
  ready_not_sched : ∀ pt ∈ st.ready, alookup st.sched pt.2 = none
  ready_not_failed : ∀ pt ∈ st.ready, pt.2 ∉ st.failedTasks
  ready_nodup : (st.ready.map (·.2)).Nodup
  ready_deps : ∀ pt ∈ st.ready, ∀ d ∈ depsOf env pt.2,
    resolvedB st.sched st.failedTasks d = true
  sched_deps : ∀ t s, alookup st.sched t = some s →
    ∀ d ∈ depsOf env t, resolvedB st.sched st.failedTasks d = true
  failed_not_sched : ∀ t ∈ st.failedTasks, alookup st.sched t = none
  failed_retry : ∀ t ∈ st.failedTasks, 3 ≤ retryOf st t
  sched_nodup : (akeys st.sched).Nodup
  cap_ok : ∀ team m, teamUsageAt st.sched team m ≤ capacityOf env team
  work_ok : ∀ t s, alookup st.sched t = some s →
    is_working_day env s.start_time s.product_line = true
  order_ok : ∀ c ∈ env.constraints, relOk c.Relationship = true →
    (∀ c2 ∈ env.constraints, c2.Second = c.Second →
      c2.Relationship = "Finish = Start" → c2.First = c.First) →
    ∀ sa sb, alookup st.sched c.First = some sa → alookup st.sched c.Second = some sb →
      sa.end_time ≤ sb.start_time

theorem recover_inv (env : Env) (prio : String → PyNum) (total : Nat) (st : LoopState)
    (hwf : (akeys env.tasks).Nodup) (hInv : Inv env st) :
    Inv env (recoverState env prio total st) ∧
      (recoverState env prio total st).sched = st.sched ∧
      (recoverState env prio total st).failedTasks = st.failedTasks ∧
      (recoverState env prio total st).retryCounts = st.retryCounts := by
  rw [recoverState]
  by_cases hguard : st.ready.isEmpty && st.scheduledCount + st.failedTasks.length < total
  · rw [if_pos hguard]
    have hempty : st.ready = [] :=
      List.isEmpty_iff.mp (Bool.and_eq_true_iff.mp hguard).1
    have hmem : ∀ pt ∈ st.ready ++ recoveryPushes env prio st,
        pt ∈ recoveryPushes env prio st := by
      intro pt hpt
      rw [hempty, List.nil_append] at hpt
      exact hpt
    have hcond : ∀ pt ∈ recoveryPushes env prio st, recoveryCond env st pt.2 = true := by
      intro pt hpt
      rw [recoveryPushes_eq] at hpt
      obtain ⟨t, ht, rfl⟩ := List.mem_map.mp hpt
      exact (List.mem_filter.mp ht).2
    refine ⟨⟨?_, ?_, ?_, ?_, hInv.sched_deps, hInv.failed_not_sched, hInv.failed_retry,
      hInv.sched_nodup, hInv.cap_ok, hInv.work_ok, hInv.order_ok⟩, rfl, rfl, rfl⟩
    · intro pt hpt
      exact (recoveryCond_spec env st pt.2 (hcond pt (hmem pt hpt))).1
    · intro pt hpt
      exact (recoveryCond_spec env st pt.2 (hcond pt (hmem pt hpt))).2.1
    · rw [hempty, List.nil_append, recoveryPushes_eq, List.map_map]
      have heq : ((·.2) ∘ fun t : String => (prio t, t)) = id := rfl
      rw [heq, List.map_id]
      exact (hwf.filter _)
    · intro pt hpt
      exact (recoveryCond_spec env st pt.2 (hcond pt (hmem pt hpt))).2.2
  · rw [if_neg hguard]
    exact ⟨hInv, rfl, rfl, rfl⟩

theorem init_inv (env : Env) (prio : String → PyNum) (hwf : (akeys env.tasks).Nodup) :
    Inv env (initState env prio) := by
  have hready : (initState env prio).ready
      = ((env.tasks.map (·.1)).filter (fun t => (depsOf env t).isEmpty)).map
          (fun t => (prio t, t)) := by
    rw [initState]
    simp only
    rw [show (env.tasks.filterMap
        (fun p => if (depsOf env p.1).isEmpty then some (prio p.1, p.1) else none))
      = (env.tasks.map (·.1)).filterMap
        (fun t => if (depsOf env t).isEmpty then some (prio t, t) else none) from ?_]
    · rw [filterMap_if_eq_map_filter]
    · rw [List.filterMap_map]
      rfl
  have hdeps : ∀ pt ∈ (initState env prio).ready, depsOf env pt.2 = [] := by
    intro pt hpt
    rw [hready] at hpt
    obtain ⟨t, ht, rfl⟩ := List.mem_map.mp hpt
    exact List.isEmpty_iff.mp (List.mem_filter.mp ht).2
  refine ⟨?_, ?_, ?_, ?_, ?_, ?_, ?_, ?_, ?_, ?_, ?_⟩
  · intro pt _; rfl
  · intro pt _; simp [initState]
  · rw [hready, List.map_map]
    have heq : ((·.2) ∘ fun t : String => (prio t, t)) = id := rfl
    rw [heq, List.map_id]
    exact hwf.filter _
  · intro pt hpt d hd
    rw [hdeps pt hpt] at hd
    simp at hd
  · intro t s h
    simp [initState, alookup] at h
  · intro t h; simp [initState] at h
  · intro t h; simp [initState] at h
  · simp [initState, akeys]
  · intro team m
    simp only [initState, teamUsageAt, List.foldl_nil]
    exact Nat.zero_le _
  · intro t s h
    simp [initState, alookup] at h
  · intro c _ _ _ sa sb ha _
    simp [initState, alookup] at ha

end Aurora

namespace Aurora

theorem alookup_append_ne {β : Type} (l : List (String × β)) (k : String) (v : β)
    (x : String) (hx : alookup l x = none) (hk : k ≠ x) :
    alookup (l ++ [(k, v)]) x = none := by
  rw [alookup_append_of_none l k v x hx, if_neg hk]

theorem alookup_append_cases {β : Type} (l : List (String × β)) (k : String) (v : β)
    (x : String) (s : β) (h : alookup (l ++ [(k, v)]) x = some s) :
    alookup l x = some s ∨ (x = k ∧ s = v ∧ alookup l x = none) := by
  cases hl : alookup l x with
  | some s2 =>
    left
    rw [alookup_append_of_some l (k, v) x s2 hl] at h
    rw [Option.some_inj.mp h]
  | none =>
    right
    rw [alookup_append_of_none l k v x hl] at h
    by_cases hk : k = x
    · rw [if_pos hk] at h
      refine ⟨hk.symm, ?_, rfl⟩
      exact (Option.some_inj.mp h).symm
    · rw [if_neg hk] at h
      exact absurd h (by simp)

theorem not_mem_akeys_of_alookup_none {β : Type} (l : List (String × β)) (x : String)
    (h : alookup l x = none) : x ∉ akeys l := by
  intro hm
  have := alookup_isSome_of_mem_akeys l x hm
  rw [h] at this
  exact Bool.noConfusion this

theorem check_capacity_spec (env : Env) (sched : List (String × SchedEntry))
    (team : String) (startT endT needed : Nat)
    (h : check_team_capacity_at_time env sched team startT endT needed = true)
    (m : Nat) (hm1 : startT ≤ m) (hm2 : m < endT) :
    teamUsageAt sched team m + needed ≤ capacityOf env team := by
  rw [check_team_capacity_at_time] at h
  rw [List.all_eq_true] at h
  have hmem : m - startT ∈ List.range (endT - startT) := by
    rw [List.mem_range]
    omega
  have := h (m - startT) hmem
  rw [decide_eq_true_eq] at this
  have hms : startT + (m - startT) = m := by omega
  rwa [hms] at this

theorem isFinishEqualsStart_spec (env : Env) (dep tid : String)
    (h : isFinishEqualsStart env dep tid = true) :
    ∃ c ∈ env.constraints, c.First = dep ∧ c.Second = tid ∧
      c.Relationship = "Finish = Start" := by
  rw [isFinishEqualsStart, List.any_eq_true] at h
  obtain ⟨c, hc, hcond⟩ := h
  simp only [Bool.and_eq_true, decide_eq_true_eq] at hcond
  exact ⟨c, hc, hcond.1.1, hcond.1.2, hcond.2⟩

theorem foldl_push_eq (c1 c2 : String → Bool) (f : String → PyNum × String) :
    ∀ (l : List String) (acc : List (PyNum × String)),
      l.foldl (fun acc dep => if c1 dep then acc
        else if c2 dep then acc ++ [f dep] else acc) acc
      = acc ++ ((l.filter (fun d => !c1 d && c2 d)).map f) := by
  intro l
  induction l with
  | nil => intro acc; simp
  | cons d rest ih =>
    intro acc
    rw [List.foldl_cons, List.filter_cons]
    by_cases h1 : c1 d
    · rw [if_pos h1]
      have hcond : (!c1 d && c2 d) = false := by rw [h1]; rfl
      rw [hcond]
      simp only [Bool.false_eq_true, if_false]
      exact ih acc
    · have h1f : c1 d = false := by
        cases hc : c1 d with
        | false => rfl
        | true => exact absurd hc h1
      rw [if_neg h1]
      by_cases h2 : c2 d
      · rw [if_pos h2]
        have hcond : (!c1 d && c2 d) = true := by rw [h1f, h2]; rfl
        rw [hcond]
        simp only [if_true]
        rw [List.map_cons, ih]
        simp [List.append_assoc]
      · have h2f : c2 d = false := by
          cases hc : c2 d with
          | false => rfl
          | true => exact absurd hc h2
        rw [if_neg h2]
        have hcond : (!c1 d && c2 d) = false := by rw [h2f, Bool.and_false]
        rw [hcond]
        simp only [Bool.false_eq_true, if_false]
        exact ih acc

theorem inv_no_sched_change (env : Env) (st : LoopState) (hInv : Inv env st)
    (r2 : List (PyNum × String)) (c2 : Nat) (f2 : List String) (rc2 : List (String × Nat))
    (hr1 : ∀ pt ∈ r2, alookup st.sched pt.2 = none)
    (hr2 : ∀ pt ∈ r2, pt.2 ∉ f2)
    (hr3 : (r2.map (·.2)).Nodup)
    (hr4 : ∀ pt ∈ r2, ∀ d ∈ depsOf env pt.2, resolvedB st.sched f2 d = true)
    (hfsub : ∀ x ∈ st.failedTasks, x ∈ f2)
    (hf1 : ∀ x ∈ f2, alookup st.sched x = none)
    (hf2 : ∀ x ∈ f2, 3 ≤ (alookup rc2 x).getD 0) :
    Inv env { sched := st.sched, ready := r2, scheduledCount := c2,
              failedTasks := f2, retryCounts := rc2 } := by
  refine ⟨hr1, hr2, hr3, hr4, ?_, hf1, ?_, hInv.sched_nodup, hInv.cap_ok, hInv.work_ok,
    hInv.order_ok⟩
  · intro t s h d hd
    exact resolvedB_mono_failed st.sched st.failedTasks f2 hfsub d (hInv.sched_deps t s h d hd)
  · intro x hx
    exact hf2 x hx

end Aurora

namespace Aurora

theorem pop_common (env : Env) (st : LoopState) (hInv : Inv env st) (p : PyNum) (t : String)
    (rest : List (PyNum × String)) (hpop : popMin st.ready = some ((p, t), rest)) :
    alookup st.sched t = none ∧ t ∉ st.failedTasks ∧
    (∀ d ∈ depsOf env t, resolvedB st.sched st.failedTasks d = true) ∧
    (∀ pt ∈ rest, pt ∈ st.ready) ∧ t ∉ rest.map (·.2) ∧ (rest.map (·.2)).Nodup := by
  obtain ⟨hmem, hresteq⟩ := popMin_facts st.ready (p, t) rest hpop
  have hsub : rest.Sublist st.ready := hresteq ▸ eraseFirst_sublist st.ready (p, t)
  refine ⟨hInv.ready_not_sched _ hmem, hInv.ready_not_failed _ hmem, hInv.ready_deps _ hmem,
    fun pt h => hsub.subset h, ?_, (hsub.map (·.2)).nodup hInv.ready_nodup⟩
  have := not_mem_eraseFirst_of_nodup st.ready (p, t) hInv.ready_nodup hmem
  rw [← hresteq] at this
  exact this

theorem inv_skip (env : Env) (st : LoopState) (hInv : Inv env st) (p : PyNum) (t : String)
    (rest : List (PyNum × String)) (hpop : popMin st.ready = some ((p, t), rest))
    (hretry : 3 ≤ retryOf st t) :
    Inv env { st with ready := rest, failedTasks := addFailed st.failedTasks t } := by
  obtain ⟨hns, hnf, _, hrestmem, htnr, hrnd⟩ := pop_common env st hInv p t rest hpop
  exact inv_no_sched_change env st hInv rest st.scheduledCount (addFailed st.failedTasks t)
    st.retryCounts
    (fun pt h => hInv.ready_not_sched pt (hrestmem pt h))
    (fun pt h hmem2 => by
      rcases (mem_addFailed _ _ _).mp hmem2 with h2 | h2
      · exact hInv.ready_not_failed pt (hrestmem pt h) h2
      · exact htnr (h2 ▸ List.mem_map_of_mem (·.2) h))
    hrnd
    (fun pt h d hd => resolvedB_mono_failed st.sched st.failedTasks _
      (fun x hx => (mem_addFailed _ _ _).mpr (Or.inl hx)) d
      (hInv.ready_deps pt (hrestmem pt h) d hd))
    (fun x hx => (mem_addFailed _ _ _).mpr (Or.inl hx))
    (fun x hx => by
      rcases (mem_addFailed _ _ _).mp hx with h2 | h2
      · exact hInv.failed_not_sched x h2
      · exact h2 ▸ hns)
    (fun x hx => by
      rcases (mem_addFailed _ _ _).mp hx with h2 | h2
      · exact hInv.failed_retry x h2
      · exact h2 ▸ hretry)

theorem inv_noproduct (env : Env) (st : LoopState) (hInv : Inv env st) (p : PyNum) (t : String)
    (rest : List (PyNum × String)) (hpop : popMin st.ready = some ((p, t), rest)) :
    Inv env { st with ready := rest } := by
  obtain ⟨_, _, _, hrestmem, _, hrnd⟩ := pop_common env st hInv p t rest hpop
  exact inv_no_sched_change env st hInv rest st.scheduledCount st.failedTasks st.retryCounts
    (fun pt h => hInv.ready_not_sched pt (hrestmem pt h))
    (fun pt h => hInv.ready_not_failed pt (hrestmem pt h))
    hrnd
    (fun pt h d hd => hInv.ready_deps pt (hrestmem pt h) d hd)
    (fun x hx => hx)
    hInv.failed_not_sched
    hInv.failed_retry

theorem inv_fail (env : Env) (st : LoopState) (hInv : Inv env st) (p : PyNum) (t : String)
    (rest : List (PyNum × String)) (hpop : popMin st.ready = some ((p, t), rest)) :
    Inv env (failState st p t rest) ∧
      ∀ x ∈ st.failedTasks, x ∈ (failState st p t rest).failedTasks := by
  obtain ⟨hns, hnf, hdeps, hrestmem, htnr, hrnd⟩ := pop_common env st hInv p t rest hpop
  rw [failState]
  by_cases hrc : retryOf st t + 1 < 3
  · rw [if_pos hrc]
    refine ⟨?_, fun x hx => hx⟩
    refine inv_no_sched_change env st hInv (rest ++ [(p + 1/10, t)]) st.scheduledCount
      st.failedTasks (aset st.retryCounts t (retryOf st t + 1)) ?_ ?_ ?_ ?_
      (fun x hx => hx) hInv.failed_not_sched ?_
    · intro pt hpt
      rcases List.mem_append.mp hpt with h | h
      · exact hInv.ready_not_sched pt (hrestmem pt h)
      · rw [List.mem_singleton.mp h]
        exact hns
    · intro pt hpt
      rcases List.mem_append.mp hpt with h | h
      · exact hInv.ready_not_failed pt (hrestmem pt h)
      · rw [List.mem_singleton.mp h]
        exact hnf
    · rw [List.map_append]
      rw [List.nodup_append]
      refine ⟨hrnd, by simp, ?_⟩
      intro x hx
      simp only [List.map_cons, List.map_nil, List.mem_cons, List.not_mem_nil, or_false]
      intro hxt
      exact htnr (hxt ▸ hx)
    · intro pt hpt d hd
      rcases List.mem_append.mp hpt with h | h
      · exact hInv.ready_deps pt (hrestmem pt h) d hd
      · rw [List.mem_singleton.mp h] at hd
        exact hdeps d hd
    · intro x hx
      have hxne : t ≠ x := fun he => hnf (he ▸ hx)
      rw [alookup_aset_ne st.retryCounts t x _ hxne]
      exact hInv.failed_retry x hx
  · rw [if_neg hrc]
    refine ⟨?_, fun x hx => (mem_addFailed _ _ _).mpr (Or.inl hx)⟩
    refine inv_no_sched_change env st hInv rest st.scheduledCount
      (addFailed st.failedTasks t) (aset st.retryCounts t (retryOf st t + 1))
      (fun pt h => hInv.ready_not_sched pt (hrestmem pt h)) ?_ hrnd ?_
      (fun x hx => (mem_addFailed _ _ _).mpr (Or.inl hx)) ?_ ?_
    · intro pt h hmem2
      rcases (mem_addFailed _ _ _).mp hmem2 with h2 | h2
      · exact hInv.ready_not_failed pt (hrestmem pt h) h2
      · exact htnr (h2 ▸ List.mem_map_of_mem (·.2) h)
    · intro pt h d hd
      exact resolvedB_mono_failed st.sched st.failedTasks _
        (fun x hx => (mem_addFailed _ _ _).mpr (Or.inl hx)) d
        (hInv.ready_deps pt (hrestmem pt h) d hd)
    · intro x hx
      rcases (mem_addFailed _ _ _).mp hx with h2 | h2
      · exact hInv.failed_not_sched x h2
      · exact h2 ▸ hns
    · intro x hx
      rcases (mem_addFailed _ _ _).mp hx with h2 | h2
      · have hxne : t ≠ x := fun he => hnf (he ▸ h2)
        rw [alookup_aset_ne st.retryCounts t x _ hxne]
        exact hInv.failed_retry x h2
      · rw [h2, alookup_aset_self]
        simp only [Option.getD_some]
        omega

end Aurora

namespace Aurora

theorem alookup_append_ne_eq {β : Type} (l : List (String × β)) (k : String) (v : β)
    (x : String) (hk : k ≠ x) : alookup (l ++ [(k, v)]) x = alookup l x := by
  cases hl : alookup l x with
  | some s => exact alookup_append_of_some l (k, v) x s hl
  | none => rw [alookup_append_of_none l k v x hl, if_neg hk]

theorem searchResult_spec (env : Env) (sched : List (String × SchedEntry)) (t pl : String)
    (ts : Nat) (team sh : String)
    (h : searchResult env sched t pl = some (ts, team, sh)) :
    computeEarliest env sched t (earliestInit env t) ≤ ts ∧
    is_working_day env ts pl = true ∧
    check_team_capacity_at_time env sched team ts
      (ts + ((alookup env.tasks t).getD defaultTaskInfo).duration)
      ((alookup env.tasks t).getD defaultTaskInfo).mechanics_required = true := by
  rw [searchResult] at h
  split at h
  · obtain ⟨r, hget⟩ := qualitySearch_props env sched
      (computeEarliest env sched t (earliestInit env t)) pl
      ((alookup env.tasks t).getD defaultTaskInfo).mechanics_required
      ((alookup env.tasks t).getD defaultTaskInfo).duration ts team sh h
    rw [get_next_working_time_with_capacity] at hget
    have hprops := get_next_go_props env sched pl team
      ((alookup env.tasks t).getD defaultTaskInfo).mechanics_required
      ((alookup env.tasks t).getD defaultTaskInfo).duration true 5000
      (computeEarliest env sched t (earliestInit env t)) ts r hget
    exact ⟨get_next_go_ge env sched pl team _ _ true 5000 _ ts r hget, hprops.1, hprops.2⟩
  · cases hnext : get_next_working_time_with_capacity env sched
        (computeEarliest env sched t (earliestInit env t)) pl
        ((alookup env.tasks t).getD defaultTaskInfo).team
        ((alookup env.tasks t).getD defaultTaskInfo).mechanics_required
        ((alookup env.tasks t).getD defaultTaskInfo).duration false with
    | none =>
      rw [hnext] at h
      exact absurd h (by simp)
    | some pr =>
      rw [hnext] at h
      obtain ⟨ts2, sh2⟩ := pr
      simp only [Option.some_inj, Prod.mk.injEq] at h
      obtain ⟨rfl, hteam, rfl⟩ := h
      rw [← hteam]
      rw [get_next_working_time_with_capacity] at hnext
      have hprops := get_next_go_props env sched pl
        ((alookup env.tasks t).getD defaultTaskInfo).team
        ((alookup env.tasks t).getD defaultTaskInfo).mechanics_required
        ((alookup env.tasks t).getD defaultTaskInfo).duration false 5000
        (computeEarliest env sched t (earliestInit env t)) ts2 sh2 hnext
      exact ⟨get_next_go_ge env sched pl _ _ _ false 5000 _ ts2 sh2 hnext,
        hprops.1, hprops.2⟩

end Aurora

namespace Aurora

theorem inv_success (env : Env) (prio : String → PyNum) (st : LoopState)
    (hInv : Inv env st) (p : PyNum) (t : String)
    (rest : List (PyNum × String)) (hpop : popMin st.ready = some ((p, t), rest))
    (pl : String) (ts : Nat) (team sh : String)
    (hres : searchResult env st.sched t pl = some (ts, team, sh)) :
    Inv env (successState env prio st t rest pl ts team sh) := by
  obtain ⟨hns, hnf, hdeps, hrestmem, htnr, hrnd⟩ := pop_common env st hInv p t rest hpop
  obtain ⟨hge, hwork, hcap⟩ := searchResult_spec env st.sched t pl ts team sh hres
  have hsched2 : insertSched st.sched t (mkEntry env t pl ts team sh)
      = st.sched ++ [(t, mkEntry env t pl ts team sh)] :=
    aset_fresh_append st.sched t _ hns
  set entry := mkEntry env t pl ts team sh with hentrydef
  have hcond : ∀ d : String,
      (!((alookup (st.sched ++ [(t, entry)]) d).isSome || st.failedTasks.contains d)
        && (depsOf env d).all (fun x => resolvedB (st.sched ++ [(t, entry)])
             st.failedTasks x)) = true →
      alookup (st.sched ++ [(t, entry)]) d = none ∧ d ∉ st.failedTasks ∧
        ∀ x ∈ depsOf env d, resolvedB (st.sched ++ [(t, entry)]) st.failedTasks x = true := by
    intro d hd
    simp only [Bool.and_eq_true, Bool.not_eq_true', Bool.or_eq_false_iff] at hd
    obtain ⟨⟨hd1, hd2⟩, hd3⟩ := hd
    refine ⟨Option.not_isSome_iff_eq_none.mp (by simp [hd1]), ?_, ?_⟩
    · intro hm
      simp [hm] at hd2
    · intro x hx
      exact List.all_eq_true.mp hd3 x hx
  have hstate : successState env prio st t rest pl ts team sh =
      { sched := st.sched ++ [(t, entry)],
        ready := rest ++ ((dependentsOf env t).filter (fun d =>
          !((alookup (st.sched ++ [(t, entry)]) d).isSome || st.failedTasks.contains d)
          && (depsOf env d).all (fun x => resolvedB (st.sched ++ [(t, entry)])
               st.failedTasks x))).map (fun dep => (prio dep, dep)),
        scheduledCount := st.scheduledCount + 1,
        failedTasks := st.failedTasks, retryCounts := st.retryCounts } := by
    rw [successState]
    simp only [← hentrydef, hsched2]
    rw [foldl_push_eq]
  rw [hstate]
  have hdisj : ∀ dep ∈ dependentsOf env t, dep ∉ rest.map (·.2) := by
    intro dep hdep hmem
    obtain ⟨q, hq, hq2⟩ := List.mem_map.mp hmem
    have hready := hInv.ready_deps q (hrestmem q hq)
    obtain ⟨c, hc, hrel, hfirst, hsecond⟩ := (mem_dependentsOf env t dep).mp hdep
    have htmem : t ∈ depsOf env q.2 := by
      rw [mem_depsOf]
      exact ⟨c, hc, hrel, by rw [hsecond, hq2], hfirst⟩
    have := hready t htmem
    rw [resolvedB] at this
    rcases Bool.or_eq_true_iff.mp this with h2 | h2
    · rw [hns] at h2
      exact Bool.noConfusion h2
    · exact hnf (List.mem_of_elem_eq_true h2)
  have hlookt : alookup (st.sched ++ [(t, entry)]) t = some entry := by
    rw [alookup_append_of_none st.sched t entry t hns, if_pos rfl]
  have hmapsnd : ∀ (l : List String),
      (l.map (fun dep => (prio dep, dep))).map (·.2) = l := by
    intro l
    rw [List.map_map]
    exact List.map_id l
  refine ⟨?_, ?_, ?_, ?_, ?_, ?_, ?_, ?_, ?_, ?_, ?_⟩
  · -- ready_not_sched
    intro pt hpt
    rcases List.mem_append.mp hpt with h | h
    · have hne : t ≠ pt.2 := by
        intro he
        exact htnr (he ▸ List.mem_map_of_mem (·.2) h)
      rw [alookup_append_ne_eq st.sched t entry pt.2 hne]
      exact hInv.ready_not_sched pt (hrestmem pt h)
    · obtain ⟨dep, hdep, rfl⟩ := List.mem_map.mp h
      exact (hcond dep (List.mem_filter.mp hdep).2).1
  · -- ready_not_failed
    intro pt hpt
    rcases List.mem_append.mp hpt with h | h
    · exact hInv.ready_not_failed pt (hrestmem pt h)
    · obtain ⟨dep, hdep, rfl⟩ := List.mem_map.mp h
      exact (hcond dep (List.mem_filter.mp hdep).2).2.1
  · -- ready_nodup
    rw [List.map_append, List.nodup_append]
    refine ⟨hrnd, ?_, ?_⟩
    · rw [hmapsnd]
      exact (dependentsOf_nodup env t).filter _
    · intro x hx
      rw [hmapsnd]
      intro hx2
      exact hdisj x (List.mem_of_mem_filter hx2) hx
  · -- ready_deps
    intro pt hpt d hd
    rcases List.mem_append.mp hpt with h | h
    · exact resolvedB_mono_sched st.sched (t, entry) st.failedTasks d
        (hInv.ready_deps pt (hrestmem pt h) d hd)
    · obtain ⟨dep, hdep, rfl⟩ := List.mem_map.mp h
      exact (hcond dep (List.mem_filter.mp hdep).2).2.2 d hd
  · -- sched_deps
    intro t2 s2 h2 d hd
    rcases alookup_append_cases st.sched t entry t2 s2 h2 with hold | ⟨he1, _, _⟩
    · exact resolvedB_mono_sched st.sched (t, entry) st.failedTasks d
        (hInv.sched_deps t2 s2 hold d hd)
    · exact resolvedB_mono_sched st.sched (t, entry) st.failedTasks d
        (hdeps d (he1 ▸ hd))
  · -- failed_not_sched
    intro x hx
    have hne : t ≠ x := fun he => hnf (he ▸ hx)
    rw [alookup_append_ne_eq st.sched t entry x hne]
    exact hInv.failed_not_sched x hx
  · -- failed_retry
    exact hInv.failed_retry
  · -- sched_nodup
    rw [akeys_append, List.nodup_append]
    refine ⟨hInv.sched_nodup, by simp, ?_⟩
    intro x hx
    simp only [List.mem_cons, List.not_mem_nil, or_false]
    intro he
    exact (not_mem_akeys_of_alookup_none st.sched t hns) (he ▸ hx)
  · -- cap_ok
    intro team2 m
    rw [teamUsageAt_append]
    by_cases hcover : entry.team = team2 ∧ entry.start_time ≤ m ∧ m < entry.end_time
    · rw [if_pos hcover]
      obtain ⟨hteq, hm1, hm2⟩ := hcover
      have hcheck := check_capacity_spec env st.sched team ts
        (ts + ((alookup env.tasks t).getD defaultTaskInfo).duration)
        ((alookup env.tasks t).getD defaultTaskInfo).mechanics_required hcap m hm1 hm2
      rw [← hteq]
      exact hcheck
    · rw [if_neg hcover, Nat.add_zero]
      exact hInv.cap_ok team2 m
  · -- work_ok
    intro t2 s2 h2
    rcases alookup_append_cases st.sched t entry t2 s2 h2 with hold | ⟨_, rfl, _⟩
    · exact hInv.work_ok t2 s2 hold
    · exact hwork
  · -- order_ok
    intro c hc hrel hfes sa sb ha hb
    rcases alookup_append_cases st.sched t entry c.First sa ha with haold | ⟨hfa, rfl, _⟩
    · rcases alookup_append_cases st.sched t entry c.Second sb hb with hbold | ⟨hfb, rfl, _⟩
      · exact hInv.order_ok c hc hrel hfes sa sb haold hbold
      · -- predecessor old, successor is the new task t
        have hmemdeps : c.First ∈ depsOf env t := by
          rw [mem_depsOf]
          exact ⟨c, hc, hrel, hfb ▸ rfl, rfl⟩
        have hfes2 : ∀ d, isFinishEqualsStart env d t = true → d = c.First := by
          intro d hd
          obtain ⟨c2, hc2, h2f, h2s, h2r⟩ := isFinishEqualsStart_spec env d t hd
          have := hfes c2 hc2 (by rw [h2s, hfb]) h2r
          rw [← this, h2f]
        have hend := computeEarliest_ge env st.sched t c.First sa (earliestInit env t)
          hmemdeps haold hfes2
        exact le_trans hend hge
    · -- the new task t as predecessor of an already scheduled successor
      exfalso
      rcases alookup_append_cases st.sched t entry c.Second sb hb with hbold | ⟨hfb, rfl, _⟩
      · have htmem : t ∈ depsOf env c.Second := by
          rw [mem_depsOf]
          exact ⟨c, hc, hrel, rfl, hfa ▸ rfl⟩
        have := hInv.sched_deps c.Second sb hbold t htmem
        rw [resolvedB] at this
        rcases Bool.or_eq_true_iff.mp this with h2 | h2
        · rw [hns] at h2
          exact Bool.noConfusion h2
        · exact hnf (List.mem_of_elem_eq_true h2)
      · have htmem : t ∈ depsOf env t := by
          rw [mem_depsOf]
          exact ⟨c, hc, hrel, hfb ▸ rfl, hfa ▸ rfl⟩
        have := hdeps t htmem
        rw [resolvedB] at this
        rcases Bool.or_eq_true_iff.mp this with h2 | h2
        · rw [hns] at h2
          exact Bool.noConfusion h2
        · exact hnf (List.mem_of_elem_eq_true h2)

end Aurora

namespace Aurora

theorem core_spec (env : Env) (prio : String → PyNum) (st : LoopState) (hInv : Inv env st) :
    schedule_step_core env prio st = .halt st.sched ∨
    ∃ st2, schedule_step_core env prio st = .next st2 ∧ Inv env st2 ∧
      ∀ x ∈ st.failedTasks, x ∈ st2.failedTasks := by
  cases hpop : popMin st.ready with
  | none =>
    simp only [schedule_step_core, hpop]
    exact .inl trivial
  | some v =>
    obtain ⟨⟨p, t⟩, rest⟩ := v
    simp only [schedule_step_core, hpop]
    right
    rw [schedule_step_pop]
    by_cases hretry : 3 ≤ retryOf st t
    · rw [if_pos hretry]
      exact ⟨_, rfl, inv_skip env st hInv p t rest hpop hretry,
        fun x hx => (mem_addFailed _ _ _).mpr (.inl hx)⟩
    · rw [if_neg hretry]
      split
      next hpl =>
        exact ⟨{ st with ready := rest }, rfl, inv_noproduct env st hInv p t rest hpop,
          fun x hx => hx⟩
      next pl hpl =>
        split
        next hres =>
          obtain ⟨hI, hf⟩ := inv_fail env st hInv p t rest hpop
          exact ⟨failState st p t rest, rfl, hI, hf⟩
        next ts team sh hres =>
          exact ⟨successState env prio st t rest pl ts team sh, rfl,
            inv_success env prio st hInv p t rest hpop pl ts team sh hres,
            fun x hx => hx⟩

theorem step_spec (env : Env) (prio : String → PyNum) (total : Nat) (st : LoopState)
    (hwf : (akeys env.tasks).Nodup) (hInv : Inv env st) :
    schedule_step env prio total st = .halt st.sched ∨
    ∃ st2, schedule_step env prio total st = .next st2 ∧ Inv env st2 ∧
      ∀ x ∈ st.failedTasks, x ∈ st2.failedTasks := by
  rw [schedule_step]
  obtain ⟨hInv2, hsched, hfailed, _⟩ := recover_inv env prio total st hwf hInv
  rcases core_spec env prio _ hInv2 with h | ⟨st2, h, hI, hf⟩
  · rw [h, hsched]
    exact .inl rfl
  · exact .inr ⟨st2, h, hI, fun x hx => hf x (by rw [hfailed]; exact hx)⟩

theorem loop_spec (env : Env) (prio : String → PyNum)
    (hwf : (akeys env.tasks).Nodup) (total fuel : Nat) (st : LoopState) (hInv : Inv env st) :
    ∃ stf : LoopState, Inv env stf ∧ schedule_loop env prio total fuel st = stf.sched ∧
      ∀ x ∈ st.failedTasks, x ∈ stf.failedTasks := by
  induction fuel generalizing st with
  | zero => exact ⟨st, hInv, rfl, fun x hx => hx⟩
  | succ fuel ih =>
    rw [schedule_loop]
    by_cases hg : (st.ready.isEmpty && decide (¬ st.scheduledCount < total)) = true
    · rw [if_pos hg]
      exact ⟨st, hInv, rfl, fun x hx => hx⟩
    · rw [if_neg hg]
      rcases step_spec env prio total st hwf hInv with h | ⟨st2, h, hI, hf⟩
      · rw [h]
        exact ⟨st, hInv, rfl, fun x hx => hx⟩
      · rw [h]
        obtain ⟨stf, hIf, heq, hff⟩ := ih st2 hI
        exact ⟨stf, hIf, heq, fun x hx => hff x (hf x hx)⟩

end Aurora

namespace Aurora

theorem schedule_tasks_sched_inv (env : Env) (now : Nat)
    (hwf : (akeys env.tasks).Nodup) :
    ∃ stf : LoopState, Inv env stf ∧ schedule_tasks_sched env now = stf.sched := by
  obtain ⟨stf, hI, heq, _⟩ := loop_spec env (calculate_task_priority env now) hwf
    env.tasks.length (env.tasks.length * 10)
    (initState env (calculate_task_priority env now))
    (init_inv env (calculate_task_priority env now) hwf)
  exact ⟨stf, hI, heq⟩

/-- C2: on any input whose task ids are distinct, every assignment map the
scheduler emits keeps, for every team and every minute, the summed
`mechanics_required` of that team's assignments covering the minute within
the team's capacity. -/
theorem C2_team_capacity_never_exceeded (env : Env) (now : Nat)
    (hwf : (akeys env.tasks).Nodup) :
    ∀ team m, teamUsageAt (schedule_tasks_sched env now) team m ≤ capacityOf env team := by
  obtain ⟨stf, hI, heq⟩ := schedule_tasks_sched_inv env now hwf
  rw [heq]
  exact hI.cap_ok

set_option maxRecDepth 400000 in
theorem C2_team_capacity_never_exceeded_witness :
    teamUsageAt (schedule_tasks_sched envC1 360) "M3" 520 ≤ capacityOf envC1 "M3" :=
  C2_team_capacity_never_exceeded envC1 360 (by decide) "M3" 520

/-- C1 (amended): a placed dependency edge guarantees `b.start ≥ a.end` only
when no competing `Finish = Start` edge into the same successor names a
different predecessor; the `Finish = Start` pin itself yields `≥`, not
equality. -/
theorem C1_dependency_ordering (env : Env) (now : Nat)
    (hwf : (akeys env.tasks).Nodup) :
    ∀ c ∈ env.constraints, relOk c.Relationship = true →
      (∀ c2 ∈ env.constraints, c2.Second = c.Second →
        c2.Relationship = "Finish = Start" → c2.First = c.First) →
      ∀ sa sb, alookup (schedule_tasks_sched env now) c.First = some sa →
        alookup (schedule_tasks_sched env now) c.Second = some sb →
        sa.end_time ≤ sb.start_time := by
  obtain ⟨stf, hI, heq⟩ := schedule_tasks_sched_inv env now hwf
  rw [heq]
  exact hI.order_ok

set_option maxRecDepth 400000 in
theorem C1_dependency_ordering_witness :
    ((alookup (schedule_tasks_sched envC1 360) "A_2").getD sampleEntry).end_time ≤
      ((alookup (schedule_tasks_sched envC1 360) "A_3").getD sampleEntry).start_time :=
  C1_dependency_ordering envC1 360 (by decide) ⟨"A_2", "A_3", "Finish <= Start"⟩
    (by decide) (by decide) (by decide)
    ((alookup (schedule_tasks_sched envC1 360) "A_2").getD sampleEntry)
    ((alookup (schedule_tasks_sched envC1 360) "A_3").getD sampleEntry)
    (by decide) (by decide)

set_option maxRecDepth 400000 in
theorem C1_dependency_ordering_counterexample :
    ((⟨"A_1", "A_4", "Finish <= Start"⟩ : Constraint) ∈ envC1.constraints ∧
      (⟨"A_2", "A_4", "Finish = Start"⟩ : Constraint) ∈ envC1.constraints) ∧
    (alookup (schedule_tasks_sched envC1 360) "A_1").isSome = true ∧
    (alookup (schedule_tasks_sched envC1 360) "A_2").isSome = true ∧
    (alookup (schedule_tasks_sched envC1 360) "A_4").isSome = true ∧
    ¬ (((alookup (schedule_tasks_sched envC1 360) "A_1").getD sampleEntry).end_time ≤
        ((alookup (schedule_tasks_sched envC1 360) "A_4").getD sampleEntry).start_time) ∧
    ((alookup (schedule_tasks_sched envC1 360) "A_4").getD sampleEntry).start_time ≠
      ((alookup (schedule_tasks_sched envC1 360) "A_2").getD sampleEntry).end_time := by
  exact ⟨⟨by decide, by decide⟩, by decide, by decide, by decide, by decide, by decide⟩

/-- C3 (amended): the scheduler guarantees a working day only for the
calendar day of the assignment's start minute. -/
theorem C3_start_day_is_working (env : Env) (now : Nat)
    (hwf : (akeys env.tasks).Nodup) :
    ∀ t s, alookup (schedule_tasks_sched env now) t = some s →
      is_working_day env s.start_time s.product_line = true := by
  obtain ⟨stf, hI, heq⟩ := schedule_tasks_sched_inv env now hwf
  rw [heq]
  exact hI.work_ok

set_option maxRecDepth 400000 in
theorem C3_start_day_is_working_witness :
    is_working_day envC3 sampleEntry.start_time sampleEntry.product_line = true :=
  C3_start_day_is_working envC3 360 (by decide) "A_1" sampleEntry (by decide)

set_option maxRecDepth 400000 in
theorem C3_nonworking_minute_counterexample :
    alookup (schedule_tasks_sched envC3 360) "A_1" = some sampleEntry ∧
    sampleEntry.start_time ≤ 1440 ∧ 1440 < sampleEntry.end_time ∧
    is_working_day envC3 1440 sampleEntry.product_line = false := by
  exact ⟨by decide, by decide, by decide, by decide⟩

end Aurora

namespace Aurora

theorem searchResult_none_of_no_shift (env : Env) (sched : List (String × SchedEntry))
    (t pl : String)
    (hq : ((alookup env.tasks t).getD defaultTaskInfo).is_quality = false)
    (hshift : (alookup env.teamShifts
      ((alookup env.tasks t).getD defaultTaskInfo).team).getD [] = []) :
    searchResult env sched t pl = none := by
  simp only [searchResult, hq, Bool.false_eq_true, if_false,
    get_next_working_time_with_capacity]
  rw [get_next_none_of_no_shift env sched pl _ _ _ hshift]

theorem invC6b : Inv envC6 stC6b := by
  refine ⟨?_, ?_, ?_, ?_, ?_, ?_, ?_, ?_, ?_, ?_, ?_⟩
  · intro pt hpt
    exact absurd hpt (List.not_mem_nil pt)
  · intro pt hpt
    exact absurd hpt (List.not_mem_nil pt)
  · exact List.nodup_nil
  · intro pt hpt
    exact absurd hpt (List.not_mem_nil pt)
  · intro t s h
    exact Option.noConfusion h
  · intro t ht
    rfl
  · intro t ht
    rcases List.mem_singleton.mp ht with rfl
    decide
  · exact List.nodup_nil
  · intro team m
    exact Nat.zero_le _
  · intro t s h
    exact Option.noConfusion h
  · intro c hc
    exact absurd hc (List.not_mem_nil c)

/-- C6: when the bounded (5000-step) capacity search finds no slot for a
popped task, the loop requeues it with a 0.1 priority penalty; at the third
failure it is marked permanently failed, failed tasks never appear in the
output, and a silent run returns normally. -/
theorem C6_capacity_failure_handling (env : Env) (now : Nat)
    (hwf : (akeys env.tasks).Nodup) :
    (∀ (prio : String → PyNum) (st : LoopState) (p : PyNum) (t : String)
        (rest : List (PyNum × String)) (pl : String),
      popMin st.ready = some ((p, t), rest) → retryOf st t < 3 →
      resolveProductLine env t = some pl → searchResult env st.sched t pl = none →
      t ∉ st.failedTasks →
      (retryOf st t + 1 < 3 →
        schedule_step_core env prio st = .next { st with
          ready := rest ++ [(p + 1/10, t)],
          retryCounts := aset st.retryCounts t (retryOf st t + 1) }) ∧
      (retryOf st t + 1 = 3 →
        schedule_step_core env prio st = .next { st with
          ready := rest,
          retryCounts := aset st.retryCounts t (retryOf st t + 1),
          failedTasks := st.failedTasks ++ [t] })) ∧
    (∀ (prio : String → PyNum) (total fuel : Nat) (st : LoopState), Inv env st →
      ∀ x ∈ st.failedTasks, alookup (schedule_loop env prio total fuel st) x = none) ∧
    schedule_tasks env now true = .ok (schedule_tasks_sched env now) := by
  refine ⟨?_, ?_, rfl⟩
  · intro prio st p t rest pl hpop hretry hpl hres hnf
    have hstep : schedule_step_core env prio st = .next (failState st p t rest) := by
      simp only [schedule_step_core, hpop, schedule_step_pop,
        if_neg (Nat.not_le.mpr hretry), hpl, hres]
    constructor
    · intro hrc
      rw [hstep, failState, if_pos hrc]
    · intro hrc
      rw [hstep, failState, if_neg (by omega)]
      have haf : addFailed st.failedTasks t = st.failedTasks ++ [t] := by
        rw [addFailed, if_neg (fun hc => hnf (List.mem_of_elem_eq_true hc))]
      rw [haf]
  · intro prio total fuel st hI x hx
    obtain ⟨stf, hIf, heq, hsub⟩ := loop_spec env prio hwf total fuel st hI
    rw [heq]
    exact hIf.failed_not_sched x (hsub x hx)

theorem C6_capacity_failure_handling_witness :
    schedule_step_core envC6 (fun _ => 0) stC6a = .next { stC6a with
      ready := [((0 : PyNum) + 1/10, "A_1")], retryCounts := [("A_1", 1)] } ∧
    alookup (schedule_loop envC6 (fun _ => 0) 1 10 stC6b) "A_1" = none ∧
    schedule_tasks envC6 360 true = .ok (schedule_tasks_sched envC6 360) := by
  obtain ⟨h1, h2, h3⟩ := C6_capacity_failure_handling envC6 360 (by decide)
  refine ⟨?_, h2 (fun _ => 0) 1 10 stC6b invC6b "A_1" (by decide), h3⟩
  exact (h1 (fun _ => 0) stC6a 0 "A_1" [] "Product A" rfl (by decide) rfl
    (searchResult_none_of_no_shift envC6 [] "A_1" "Product A" rfl rfl)
    (List.not_mem_nil "A_1")).1 (by decide)

theorem prio_congr (env : Env) (n1 n2 : Nat)
    (hday : ∀ pl d, alookup env.deliveryDates pl = some d →
      Int.fdiv ((d : Int) - (n1 : Int)) 1440 = Int.fdiv ((d : Int) - (n2 : Int)) 1440) :
    calculate_task_priority env n1 = calculate_task_priority env n2 := by
  funext tid
  simp only [calculate_task_priority]
  split
  · rfl
  · split
    · rfl
    · split
      · rfl
      · split
        · rfl
        · next pl hpl =>
          split
          · rfl
          · next d hd => rw [hday pl d hd]

/-- C8 (amended): two scheduler runs agree whenever the two clock readings
give every delivery date the same whole-day distance; the output and the
ranked priority list then coincide. -/
theorem C8_two_run_determinism (env : Env) (n1 n2 : Nat)
    (hday : ∀ pl d, alookup env.deliveryDates pl = some d →
      Int.fdiv ((d : Int) - (n1 : Int)) 1440 = Int.fdiv ((d : Int) - (n2 : Int)) 1440) :
    schedule_tasks_sched env n1 = schedule_tasks_sched env n2 ∧
      generate_global_priority_list env n1 = generate_global_priority_list env n2 := by
  have hprio := prio_congr env n1 n2 hday
  have hsched : schedule_tasks_sched env n1 = schedule_tasks_sched env n2 := by
    rw [schedule_tasks_sched, schedule_tasks_sched, hprio]
  refine ⟨hsched, ?_⟩
  rw [generate_global_priority_list, generate_global_priority_list, hsched]

theorem C8_two_run_determinism_witness :
    schedule_tasks_sched env8 360 = schedule_tasks_sched env8 400 ∧
      generate_global_priority_list env8 360 = generate_global_priority_list env8 400 := by
  refine C8_two_run_determinism env8 360 400 ?_
  intro pl d h
  by_cases h1 : pl = "Product A"
  · subst h1
    rw [show alookup env8.deliveryDates "Product A" = some 14400 from rfl] at h
    obtain rfl : (14400 : Nat) = d := Option.some.inj h
    decide
  · by_cases h2 : pl = "Product B"
    · subst h2
      rw [show alookup env8.deliveryDates "Product B" = some 15000 from rfl] at h
      obtain rfl : (15000 : Nat) = d := Option.some.inj h
      decide
    · simp only [env8, alookup] at h
      rw [if_neg (fun he => h1 he.symm), if_neg (fun he => h2 he.symm)] at h
      exact Option.noConfusion h

set_option maxRecDepth 400000 in
theorem C8_two_run_counterexample :
    ((alookup (schedule_tasks_sched env8 360) "A_1").getD sampleEntry).start_time ≠
      ((alookup (schedule_tasks_sched env8 1000) "A_1").getD sampleEntry).start_time := by
  decide

end Aurora
